import Mathlib

/-!
# ChargeRoute native route computation (`src/algo/compute_route.c`)

A shallow embedding of the numeric core of `main`: the Dijkstra search over the
four fixed nodes `1..4` and the five fixed edges `1-2, 2-3, 3-4, 1-3, 2-4`, the
reconstruction of the path from the predecessor links, the re-derivation of the
total distance, and the values handed to the output `printf` calls.

* `double` is modelled by exact rational arithmetic (`ℚ`); the sentinel `INF` is `10^18`.
* C `int` node numbers and array indices are modelled by `Int`; an array is a total
  function of its index (index `0` of the five-element arrays is never read).
* The ten numbers that the textual scan of the input produces (consumption rate, four
  node prices, five distances) are the fields of `Input`; the scan itself and the
  empty-input check before it are string processing and are not part of the model.
* A write past the end of `path[5]` is undefined behaviour in C; `main` returns `none`
  there, and `some outcome` for the JSON document that is printed otherwise.
-/

namespace ComputeRoute

/-- The sentinel `double INF = 1e18`. -/
def INF : ℚ := 1000000000000000000

/-- The numbers parsed from the request: `consumption`, `nodeCost[1..4]` and
`d12, d23, d34, d13, d24` (the first five `distance_km` values, in that order). -/
structure Input where
  consumption : ℚ
  cost1 : ℚ
  cost2 : ℚ
  cost3 : ℚ
  cost4 : ℚ
  d12 : ℚ
  d23 : ℚ
  d34 : ℚ
  d13 : ℚ
  d24 : ℚ

/-- The array `nodeCost[5] = {0}` after the four prices were stored at indices `1..4`. -/
def nodeCost (inp : Input) (i : Int) : ℚ :=
  if i = 1 then inp.cost1
  else if i = 2 then inp.cost2
  else if i = 3 then inp.cost3
  else if i = 4 then inp.cost4
  else 0

/-- Array store `a[i] = x`. -/
def store {α : Type} (a : Int → α) (i : Int) (x : α) : Int → α :=
  fun j => if j = i then x else a j

/-- Matrix store `w[i][j] = x`. -/
def store2 (w : Int → Int → ℚ) (i j : Int) (x : ℚ) : Int → Int → ℚ :=
  fun a b => if a = i ∧ b = j then x else w a b

/-- The adjacency costs `w[5][5]`: every entry `INF`, then the five guarded assignments
`if (d>0) w[a][b] = d*consumption*nodeCost[b]`. -/
def weights (inp : Input) : Int → Int → ℚ :=
  let w0 : Int → Int → ℚ := fun _ _ => INF
  let w1 := if inp.d12 > 0 then store2 w0 1 2 (inp.d12 * inp.consumption * nodeCost inp 2) else w0
  let w2 := if inp.d23 > 0 then store2 w1 2 3 (inp.d23 * inp.consumption * nodeCost inp 3) else w1
  let w3 := if inp.d34 > 0 then store2 w2 3 4 (inp.d34 * inp.consumption * nodeCost inp 4) else w2
  let w4 := if inp.d13 > 0 then store2 w3 1 3 (inp.d13 * inp.consumption * nodeCost inp 3) else w3
  if inp.d24 > 0 then store2 w4 2 4 (inp.d24 * inp.consumption * nodeCost inp 4) else w4

/-- The search arrays `dist[5]`, `prev[5]`, `used[5]`. -/
structure Search where
  dist : Int → ℚ
  prev : Int → Int
  used : Int → Bool

/-- The state before the main loop: `dist[i]=INF; prev[i]=-1; used[i]=0`, then `dist[1]=0.0`. -/
def init : Search :=
  { dist := store (fun _ => INF) 1 0
    prev := fun _ => -1
    used := fun _ => false }

/-- One pass of the body of the selection scan:
`if(!used[i] && (v==-1 || dist[i]<dist[v])) v=i;`. -/
def selectStep (s : Search) (v i : Int) : Int :=
  if s.used i = false ∧ (v = -1 ∨ s.dist i < s.dist v) then i else v

/-- The selection scan `int v=-1; for(int i=1;i<=4;i++) ...`. -/
def select (s : Search) : Int :=
  [1, 2, 3, 4].foldl (selectStep s) (-1)

/-- One pass of the body of the relaxation loop for neighbour `u` of `v`. -/
def relaxStep (w : Int → Int → ℚ) (v : Int) (s : Search) (u : Int) : Search :=
  if w v u < INF then
    let nd := s.dist v + w v u
    if nd < s.dist u then { s with dist := store s.dist u nd, prev := store s.prev u v }
    else s
  else s

/-- The relaxation loop `for(int u=1;u<=4;u++) ...`. -/
def relax (w : Int → Int → ℚ) (v : Int) (s : Search) : Search :=
  [1, 2, 3, 4].foldl (relaxStep w v) s

/-- The main loop with `n` iterations left: select, `break` when `v==-1`, mark, relax. -/
def loop (w : Int → Int → ℚ) : Nat → Search → Search
  | 0, s => s
  | n + 1, s =>
    let v := select s
    if v = -1 then s
    else loop w n (relax w v { s with used := store s.used v true })

/-- The whole search `for(int it=0; it<4; it++) ...` from the initial state. -/
def search (w : Int → Int → ℚ) : Search :=
  loop w 4 init

/-- The walk `while(cur!=-1){ path[plen++]=cur; cur=prev[cur]; }` with `room` free slots left
in `path[5]`; `none` when the walk would write past the end of the array. The result is the
array and `plen`. -/
def walk (prev : Int → Int) : Nat → Int → (Int → Int) → Int → Option ((Int → Int) × Int)
  | room, cur, path, plen =>
    if cur = -1 then some (path, plen)
    else
      match room with
      | 0 => none
      | room + 1 => walk prev room (prev cur) (store path plen cur) (plen + 1)

/-- One swap of the reversal loop: `t=path[i]; path[i]=path[plen-1-i]; path[plen-1-i]=t`. -/
def swapStep (plen : Int) (path : Int → Int) (i : Nat) : Int → Int :=
  let t := path i
  let path1 := store path i (path (plen - 1 - i))
  store path1 (plen - 1 - i) t

/-- The reversal loop `for(int i=0;i<plen/2;i++) ...`. -/
def reversePath (path : Int → Int) (plen : Int) : Int → Int :=
  (List.range (plen / 2).toNat).foldl (swapStep plen) path

/-- One pass of the total-distance loop: the five pair checks on `a=path[i], b=path[i+1]`. -/
def distStep (inp : Input) (path : Int → Int) (totalDist : ℚ) (i : Nat) : ℚ :=
  let a := path i
  let b := path (i + 1)
  let t1 := if a = 1 ∧ b = 2 then totalDist + inp.d12 else totalDist
  let t2 := if a = 2 ∧ b = 3 then t1 + inp.d23 else t1
  let t3 := if a = 3 ∧ b = 4 then t2 + inp.d34 else t2
  let t4 := if a = 1 ∧ b = 3 then t3 + inp.d13 else t3
  if a = 2 ∧ b = 4 then t4 + inp.d24 else t4

/-- The total-distance loop `for(int i=0;i<plen-1;i++) ...` from `totalDist=0`. -/
def totalDistance (inp : Input) (path : Int → Int) (plen : Int) : ℚ :=
  (List.range (plen - 1).toNat).foldl (distStep inp path) 0

/-- One record of `soc_timeline`. -/
structure SocPoint where
  node : Int
  soc : Int
  deriving DecidableEq, Repr

/-- One record of `debug_steps`. -/
structure DebugStep where
  current : Int
  next : Int
  newCost : ℚ
  deriving DecidableEq, Repr

/-- The printed JSON document: either `{"status":"error","message":...}` or the object with
`"status":"ok"` (its constant fields `used` and `fallbackFromNative` are left out). The
numbers are the arguments of the `printf` calls, before `%.2f` rounding. -/
inductive Outcome where
  | error (message : String)
  | ok (optimal_path : List Int) (total_cost : ℚ) (total_distance_km : ℚ)
      (soc_timeline : List SocPoint) (debug_steps : List DebugStep)
  deriving DecidableEq, Repr

/-- The constant `soc_timeline` of the output. -/
def socTimeline : List SocPoint :=
  [⟨1, 80⟩, ⟨2, 60⟩, ⟨4, 45⟩]

/-- The part of `main` after the input scan: search, no-path check, reconstruction, reversal,
total distance and the values printed. -/
def main (inp : Input) : Option Outcome :=
  let w := weights inp
  let s := search w
  let cur : Int := 4
  if s.prev cur = -1 ∧ cur ≠ 1 then some (Outcome.error "no path")
  else
    match walk s.prev 5 cur (fun _ => 0) 0 with
    | none => none
    | some (walked, plen) =>
      let path := reversePath walked plen
      let totalDist := totalDistance inp path plen
      let firstStepCost := if plen > 1 then s.dist (path 1) else s.dist (path 0)
      some (Outcome.ok ((List.range plen.toNat).map (fun i => path i)) (s.dist 4) totalDist
        socTimeline [⟨1, if plen > 1 then path 1 else 1, firstStepCost⟩])

/-- The scenario of the specification; the price of node 1 is a parameter. -/
def scenario (cost1 : ℚ) : Input :=
  { consumption := 1 / 5, cost1 := cost1, cost2 := 3 / 10, cost3 := 1 / 4, cost4 := 7 / 25
    d12 := 10, d23 := 10, d34 := 10, d13 := 25, d24 := 15 }

/-! ## Vocabulary of the properties -/

/-- Membership in the node set `1..4`. -/
@[reducible] def IsNode (u : Int) : Prop := u = 1 ∨ u = 2 ∨ u = 3 ∨ u = 4

/-- The five modelled edges `1-2, 2-3, 3-4, 1-3, 2-4`. -/
@[reducible] def IsEdge (v u : Int) : Prop :=
  (v = 1 ∧ u = 2) ∨ (v = 2 ∧ u = 3) ∨ (v = 3 ∧ u = 4) ∨ (v = 1 ∧ u = 3) ∨ (v = 2 ∧ u = 4)

/-- A weight matrix whose entries below `INF` sit on the five modelled edges only. -/
def EdgesOnly (w : Int → Int → ℚ) : Prop :=
  ∀ v u, w v u < INF → IsEdge v u

/-- A weight matrix without negative entries. -/
def NonNeg (w : Int → Int → ℚ) : Prop :=
  ∀ v u, 0 ≤ w v u

/-- Number of nodes not yet marked used. -/
def unusedCount (s : Search) : Nat :=
  (if s.used 1 = true then 0 else 1) + (if s.used 2 = true then 0 else 1) +
    (if s.used 3 = true then 0 else 1) + (if s.used 4 = true then 0 else 1)

/-- The loop invariant of the search for a matrix without negative entries. -/
structure Inv (w : Int → Int → ℚ) (s : Search) : Prop where
  src : s.dist 1 = 0 ∧ s.prev 1 = -1
  range : ∀ u, IsNode u → 0 ≤ s.dist u ∧ s.dist u ≤ INF
  settled : ∀ u x, IsNode u → IsNode x → s.used u = true → s.used x = false →
    s.dist u ≤ s.dist x
  tree : ∀ u, IsNode u → u ≠ 1 →
    (s.prev u = -1 ∧ s.dist u = INF) ∨
      (s.used (s.prev u) = true ∧ w (s.prev u) u < INF ∧
        s.dist u = s.dist (s.prev u) + w (s.prev u) u ∧ s.dist u < INF)
  closed : ∀ v u, IsNode v → IsNode u → s.used v = true → w v u < INF →
    s.dist u ≤ s.dist v + w v u

/-- What the selection scan has established after the nodes in `S` were scanned: `v` is `-1`
and every scanned node is used, or `v` is the first unused scanned node of least distance. -/
def Scanned (s : Search) (S : Int → Prop) (v : Int) : Prop :=
  (v = -1 ∧ ∀ j, S j → s.used j = true) ∨
  (S v ∧ s.used v = false ∧
    ∀ j, S j → s.used j = false → s.dist v ≤ s.dist j ∧ (s.dist j = s.dist v → v ≤ j))

/-- Every predecessor link that is set points along an entry of `w` below `INF`. -/
def PrevOK (w : Int → Int → ℚ) (s : Search) : Prop :=
  ∀ u, s.prev u = -1 ∨ w (s.prev u) u < INF

/-! ## Vocabulary of the claims

These definitions follow the wording of the specification; the theorems compare them with
what `main` computes. -/

/-- The parsed distance of the pair `(a,b)`; `0` for a pair that is not a modelled edge. -/
def edgeDistance (inp : Input) (a b : Int) : ℚ :=
  if a = 1 ∧ b = 2 then inp.d12
  else if a = 2 ∧ b = 3 then inp.d23
  else if a = 3 ∧ b = 4 then inp.d34
  else if a = 1 ∧ b = 3 then inp.d13
  else if a = 2 ∧ b = 4 then inp.d24
  else 0

/-- An edge is present when it is one of the five modelled edges and its distance is `> 0`. -/
def Present (inp : Input) (a b : Int) : Prop :=
  IsEdge a b ∧ 0 < edgeDistance inp a b

/-- The cost of an edge: `distance(a,b) * consumption * price(b)`. -/
def edgeCost (inp : Input) (a b : Int) : ℚ :=
  edgeDistance inp a b * inp.consumption * nodeCost inp b

/-- The sum of the edge costs along a node sequence. -/
def routeCost (inp : Input) : List Int → ℚ
  | a :: b :: rest => edgeCost inp a b + routeCost inp (b :: rest)
  | _ => 0

/-- The sum of the edge distances along a node sequence. -/
def routeDistance (inp : Input) : List Int → ℚ
  | a :: b :: rest => edgeDistance inp a b + routeDistance inp (b :: rest)
  | _ => 0

/-- All edges of a node sequence are present. -/
def RoutePresent (inp : Input) (p : List Int) : Prop :=
  List.Chain' (Present inp) p

/-- The three routes from node 1 to node 4. -/
def routes : List (List Int) :=
  [[1, 2, 4], [1, 2, 3, 4], [1, 3, 4]]

/-- A valid input: consumption `> 0`, the four prices `>= 0`, the five distances `>= 0`. -/
structure Valid (inp : Input) : Prop where
  consumption_pos : 0 < inp.consumption
  cost1_nonneg : 0 ≤ inp.cost1
  cost2_nonneg : 0 ≤ inp.cost2
  cost3_nonneg : 0 ≤ inp.cost3
  cost4_nonneg : 0 ≤ inp.cost4
  d12_nonneg : 0 ≤ inp.d12
  d23_nonneg : 0 ≤ inp.d23
  d34_nonneg : 0 ≤ inp.d34
  d13_nonneg : 0 ≤ inp.d13
  d24_nonneg : 0 ≤ inp.d24

/-- Every route whose edges are all present costs less than the sentinel. -/
def CostsBelowINF (inp : Input) : Prop :=
  ∀ r ∈ routes, RoutePresent inp r → routeCost inp r < INF

/-- Input `B` is input `A` except that one edge, of distance `> 0` in `A`, has a distance in
`B` that is at least as large. -/
def RaisesOneEdge (A B : Input) : Prop :=
  B.consumption = A.consumption ∧ B.cost1 = A.cost1 ∧ B.cost2 = A.cost2 ∧
  B.cost3 = A.cost3 ∧ B.cost4 = A.cost4 ∧
  ((0 < A.d12 ∧ A.d12 ≤ B.d12 ∧ B.d23 = A.d23 ∧ B.d34 = A.d34 ∧ B.d13 = A.d13 ∧
      B.d24 = A.d24) ∨
   (0 < A.d23 ∧ A.d23 ≤ B.d23 ∧ B.d12 = A.d12 ∧ B.d34 = A.d34 ∧ B.d13 = A.d13 ∧
      B.d24 = A.d24) ∨
   (0 < A.d34 ∧ A.d34 ≤ B.d34 ∧ B.d12 = A.d12 ∧ B.d23 = A.d23 ∧ B.d13 = A.d13 ∧
      B.d24 = A.d24) ∨
   (0 < A.d13 ∧ A.d13 ≤ B.d13 ∧ B.d12 = A.d12 ∧ B.d23 = A.d23 ∧ B.d34 = A.d34 ∧
      B.d24 = A.d24) ∨
   (0 < A.d24 ∧ A.d24 ≤ B.d24 ∧ B.d12 = A.d12 ∧ B.d23 = A.d23 ∧ B.d34 = A.d34 ∧
      B.d13 = A.d13))

/-- The scenario of the specification without the two edges into node 4. -/
def noRouteInput : Input :=
  { scenario 0 with d34 := 0, d24 := 0 }

/-- An input with the single edge 2-4 and the negative price `-1024` at node 4. The cost
of the edge, `-1024`, is a multiple of the spacing `128` of the doubles next to `1e18`, so
`1e18 + (-1024)` is computed without rounding in binary64 as well. -/
def brokenInput : Input :=
  { consumption := 1, cost1 := 0, cost2 := 0, cost3 := 0, cost4 := -1024
    d12 := 0, d23 := 0, d34 := 0, d13 := 0, d24 := 1 }

/-- The scenario of the specification with consumption rate `0`. -/
def zeroRateInput : Input :=
  { scenario 0 with consumption := 0 }

/-- The scenario of the specification with the distance of edge 2-4 raised from 15 to 20. -/
def raisedInput : Input :=
  { scenario 0 with d24 := 20 }

/-- The input with every negative distance replaced by `0`. -/
def dropNegative (inp : Input) : Input :=
  { inp with
    d12 := max inp.d12 0, d23 := max inp.d23 0, d34 := max inp.d34 0
    d13 := max inp.d13 0, d24 := max inp.d24 0 }

/-! ## The search with a log of the improving relaxations

A copy of the search that also appends one record `(v, u, nd)` to a log at every execution of
`dist[u]=nd; prev[u]=v`. Its first component is the search itself (`searchLog_fst`). -/

/-- The body of the relaxation loop with the log. -/
def relaxStepLog (w : Int → Int → ℚ) (v : Int) (st : Search × List DebugStep) (u : Int) :
    Search × List DebugStep :=
  if w v u < INF then
    let nd := st.1.dist v + w v u
    if nd < st.1.dist u then
      ({ st.1 with dist := store st.1.dist u nd, prev := store st.1.prev u v },
        st.2 ++ [⟨v, u, nd⟩])
    else st
  else st

/-- The relaxation loop with the log. -/
def relaxLog (w : Int → Int → ℚ) (v : Int) (st : Search × List DebugStep) :
    Search × List DebugStep :=
  [1, 2, 3, 4].foldl (relaxStepLog w v) st

/-- The main loop with the log, `n` iterations left. -/
def loopLog (w : Int → Int → ℚ) : Nat → Search × List DebugStep → Search × List DebugStep
  | 0, st => st
  | n + 1, st =>
    let v := select st.1
    if v = -1 then st
    else loopLog w n (relaxLog w v ({ st.1 with used := store st.1.used v true }, st.2))

/-- The whole search with the log, from the initial state and the empty log. -/
def searchLog (w : Int → Int → ℚ) : Search × List DebugStep :=
  loopLog w 4 (init, [])

/-- Every predecessor link that is set has its record in the log. -/
def Logged (st : Search × List DebugStep) : Prop :=
  ∀ u, st.1.prev u = -1 ∨ (⟨st.1.prev u, u, st.1.dist u⟩ : DebugStep) ∈ st.2

/-- The state inside iteration `k+1` of the main loop, after the relaxation loop has handled
the neighbours in `l`: `k` full iterations, the selection, the mark, and the passes for `l`. -/
def atPoint (w : Int → Int → ℚ) (k : Nat) (l : List Int) : Search :=
  l.foldl (relaxStep w (select (loop w k init)))
    { loop w k init with used := store (loop w k init).used (select (loop w k init)) true }

/-- Inside an iteration that selected the unused node `v` in state `s`: a state `t` that has
the marks of `s` plus `v`, and the entries of `s` at every marked node. -/
def Kept (s : Search) (v : Int) (t : Search) : Prop :=
  (∀ x, t.used x = true ↔ (x = v ∨ s.used x = true)) ∧
  ∀ x, IsNode x → (x = v ∨ s.used x = true) → t.dist x = s.dist x ∧ t.prev x = s.prev x

/-- Inputs that agree except on distances that are `<= 0` in both. -/
def SameButAbsent (A B : Input) : Prop :=
  B.consumption = A.consumption ∧ B.cost1 = A.cost1 ∧ B.cost2 = A.cost2 ∧
  B.cost3 = A.cost3 ∧ B.cost4 = A.cost4 ∧
  (B.d12 = A.d12 ∨ (A.d12 ≤ 0 ∧ B.d12 ≤ 0)) ∧ (B.d23 = A.d23 ∨ (A.d23 ≤ 0 ∧ B.d23 ≤ 0)) ∧
  (B.d34 = A.d34 ∨ (A.d34 ≤ 0 ∧ B.d34 ≤ 0)) ∧ (B.d13 = A.d13 ∨ (A.d13 ≤ 0 ∧ B.d13 ≤ 0)) ∧
  (B.d24 = A.d24 ∨ (A.d24 ≤ 0 ∧ B.d24 ≤ 0))

/-- An input with the two edges 1-2 and 2-4 of distance 1, consumption 1 and prices 1. -/
def twoHopInput : Input :=
  { consumption := 1, cost1 := 1, cost2 := 1, cost3 := 1, cost4 := 1
    d12 := 1, d23 := 0, d34 := 0, d13 := 0, d24 := 1 }

/-- An input with the two edges 1-3 and 3-4 of distance 1, consumption 1 and prices 1. -/
def viaThreeInput : Input :=
  { consumption := 1, cost1 := 1, cost2 := 1, cost3 := 1, cost4 := 1
    d12 := 0, d23 := 0, d34 := 1, d13 := 1, d24 := 0 }

/-- An input with the single edge 1-2 of distance 1, consumption 1 and prices 1. -/
def deadEndInput : Input :=
  { consumption := 1, cost1 := 1, cost2 := 1, cost3 := 1, cost4 := 1
    d12 := 1, d23 := 0, d34 := 0, d13 := 0, d24 := 0 }

/-- The input `twoHopInput` with the distance of the absent edge 1-3 set to `-7`. -/
def twoHopNegInput : Input :=
  { twoHopInput with d13 := -7 }

/-- The input `deadEndInput` with the distance of the absent edge 2-4 set to `-7`. -/
def deadEndNegInput : Input :=
  { deadEndInput with d24 := -7 }

/-! ## The relaxation loop and the selection scan -/

theorem INF_pos : (0 : ℚ) < INF := by norm_num [INF]

theorem relaxStep_used (w : Int → Int → ℚ) (v : Int) (s : Search) (u : Int) :
    (relaxStep w v s u).used = s.used := by
  unfold relaxStep
  by_cases h1 : w v u < INF <;> by_cases h2 : s.dist v + w v u < s.dist u <;> simp [h1, h2]

theorem relax_used (w : Int → Int → ℚ) (v : Int) (s : Search) :
    (relax w v s).used = s.used := by
  simp [relax, List.foldl, relaxStep_used]

theorem relaxStep_dist (w : Int → Int → ℚ) (v : Int) (s : Search) (u x : Int) :
    (relaxStep w v s u).dist x =
      if x = u ∧ w v u < INF ∧ s.dist v + w v u < s.dist u then s.dist v + w v u
      else s.dist x := by
  unfold relaxStep
  by_cases h1 : w v u < INF <;> by_cases h2 : s.dist v + w v u < s.dist u <;>
    by_cases h3 : x = u <;> simp [h1, h2, h3, store]

theorem relaxStep_prev (w : Int → Int → ℚ) (v : Int) (s : Search) (u x : Int) :
    (relaxStep w v s u).prev x =
      if x = u ∧ w v u < INF ∧ s.dist v + w v u < s.dist u then v
      else s.prev x := by
  unfold relaxStep
  by_cases h1 : w v u < INF <;> by_cases h2 : s.dist v + w v u < s.dist u <;>
    by_cases h3 : x = u <;> simp [h1, h2, h3, store]

theorem relaxStep_dist_self (w : Int → Int → ℚ) (v : Int) (hv : ¬ w v v < INF) (s : Search)
    (u : Int) : (relaxStep w v s u).dist v = s.dist v := by
  rw [relaxStep_dist]
  by_cases h : v = u
  · subst h; simp [hv]
  · simp [h]

/-- Effect of the whole relaxation loop on `dist` and `prev`, entry by entry. -/
theorem relax_dist_prev (w : Int → Int → ℚ) (v : Int) (s : Search) (hv : ¬ w v v < INF)
    (x : Int) :
    ((relax w v s).dist x =
      if IsNode x ∧ w v x < INF ∧ s.dist v + w v x < s.dist x then s.dist v + w v x
      else s.dist x) ∧
    ((relax w v s).prev x =
      if IsNode x ∧ w v x < INF ∧ s.dist v + w v x < s.dist x then v
      else s.prev x) := by
  simp only [relax, List.foldl]
  have a1 := relaxStep_dist_self w v hv s 1
  have b1 := relaxStep_dist w v s 1
  have c1 := relaxStep_prev w v s 1
  generalize relaxStep w v s 1 = s1 at *
  have a2 := relaxStep_dist_self w v hv s1 2
  have b2 := relaxStep_dist w v s1 2
  have c2 := relaxStep_prev w v s1 2
  generalize relaxStep w v s1 2 = s2 at *
  have a3 := relaxStep_dist_self w v hv s2 3
  have b3 := relaxStep_dist w v s2 3
  have c3 := relaxStep_prev w v s2 3
  generalize relaxStep w v s2 3 = s3 at *
  have b4 := relaxStep_dist w v s3 4
  have c4 := relaxStep_prev w v s3 4
  generalize relaxStep w v s3 4 = s4 at *
  simp only [b4 x, c4 x, a3, b3 4, b3 x, c3 x, a2, b2 4, b2 3, b2 x, c2 x, a1, b1 4, b1 3,
    b1 2, b1 x, c1 x]
  by_cases h1 : x = 1
  · subst h1; simp [IsNode]
  by_cases h2 : x = 2
  · subst h2; simp [IsNode]
  by_cases h3 : x = 3
  · subst h3; simp [IsNode]
  by_cases h4 : x = 4
  · subst h4; simp [IsNode]
  simp [h1, h2, h3, h4, IsNode]

theorem selectStep_scanned (s : Search) (S : Int → Prop) (v i : Int)
    (hS : ∀ j, S j → 1 ≤ j ∧ j < i) (hv : Scanned s S v) :
    Scanned s (fun j => S j ∨ j = i) (selectStep s v i) := by
  unfold selectStep
  rcases hv with ⟨rfl, hall⟩ | ⟨hSv, huv, hmin⟩
  · by_cases hc : s.used i = false ∧ ((-1 : Int) = -1 ∨ s.dist i < s.dist (-1))
    · rw [if_pos hc]
      right
      refine ⟨Or.inr rfl, hc.1, ?_⟩
      rintro j (hj | rfl) hu
      · rw [hall j hj] at hu
        exact absurd hu (by simp)
      · exact ⟨le_refl _, fun _ => le_refl _⟩
    · rw [if_neg hc]
      left
      refine ⟨rfl, ?_⟩
      rintro j (hj | rfl)
      · exact hall j hj
      · cases hi : s.used j
        · exact absurd ⟨hi, Or.inl rfl⟩ hc
        · rfl
  · have hne : v ≠ -1 := by
      have := (hS v hSv).1
      omega
    right
    by_cases hc : s.used i = false ∧ (v = -1 ∨ s.dist i < s.dist v)
    · rw [if_pos hc]
      have hlt : s.dist i < s.dist v := by
        rcases hc.2 with h | h
        · exact absurd h hne
        · exact h
      refine ⟨Or.inr rfl, hc.1, ?_⟩
      rintro j (hj | rfl) hu
      · have := (hmin j hj hu).1
        exact ⟨by linarith, fun he => by linarith⟩
      · exact ⟨le_refl _, fun _ => le_refl _⟩
    · rw [if_neg hc]
      refine ⟨Or.inl hSv, huv, ?_⟩
      rintro j (hj | rfl) hu
      · exact hmin j hj hu
      · have hnl : ¬ s.dist j < s.dist v := fun h => hc ⟨hu, Or.inr h⟩
        exact ⟨not_lt.1 hnl, fun _ => le_of_lt (hS v hSv).2⟩

theorem select_scanned (s : Search) : Scanned s IsNode (select s) := by
  have h0 : Scanned s (fun _ => False) (-1) := Or.inl ⟨rfl, fun j hj => absurd hj id⟩
  have h1 := selectStep_scanned s _ _ 1 (fun j hj => absurd hj id) h0
  have h2 := selectStep_scanned s _ _ 2 (by rintro j (hj | rfl) <;> simp_all) h1
  have h3 := selectStep_scanned s _ _ 3 (by rintro j ((hj | rfl) | rfl) <;> simp_all) h2
  have h4 := selectStep_scanned s _ _ 4 (by rintro j (((hj | rfl) | rfl) | rfl) <;> simp_all) h3
  have he : (fun j : Int => (((False ∨ j = 1) ∨ j = 2) ∨ j = 3) ∨ j = 4) = IsNode := by
    funext j
    simp [IsNode, or_assoc]
  rw [he] at h4
  exact h4

/-- The selection scan returns `-1` exactly when every node is already used. -/
theorem select_none (s : Search) (h : ∀ i, IsNode i → s.used i = true) : select s = -1 := by
  rcases select_scanned s with ⟨hv, -⟩ | ⟨hn, hu, -⟩
  · exact hv
  · rw [h _ hn] at hu
    exact absurd hu (by simp)

/-- The selection scan picks an unused node of least tentative distance, the lowest-numbered
one among those. -/
theorem select_min (s : Search) (h : ∃ i, IsNode i ∧ s.used i = false) :
    IsNode (select s) ∧ s.used (select s) = false ∧
      ∀ i, IsNode i → s.used i = false →
        s.dist (select s) ≤ s.dist i ∧ (s.dist i = s.dist (select s) → select s ≤ i) := by
  rcases select_scanned s with ⟨-, hall⟩ | h2
  · obtain ⟨i, hi, hu⟩ := h
    rw [hall i hi] at hu
    exact absurd hu (by simp)
  · exact h2

/-! ## The loop invariant -/

theorem not_edge_self (w : Int → Int → ℚ) (hw : EdgesOnly w) (v : Int) : ¬ w v v < INF := by
  intro h
  have := hw v v h
  simp only [IsEdge] at this
  omega

theorem edge_nodes {v u : Int} (h : IsEdge v u) : IsNode v ∧ IsNode u ∧ u ≠ 1 ∧ v < u := by
  simp only [IsEdge] at h
  simp only [IsNode]
  omega

/-- One iteration of the main loop keeps the invariant. -/
theorem Inv_step (w : Int → Int → ℚ) (hw : EdgesOnly w) (hn : NonNeg w) (s : Search)
    (hs : Inv w s) (hex : ∃ i, IsNode i ∧ s.used i = false) :
    Inv w (relax w (select s) { s with used := store s.used (select s) true }) := by
  obtain ⟨hvn, hvu, hmin⟩ := select_min s hex
  generalize select s = v at *
  have hvv := not_edge_self w hw v
  have hd := fun x => (relax_dist_prev w v { s with used := store s.used v true } hvv x).1
  have hp := fun x => (relax_dist_prev w v { s with used := store s.used v true } hvv x).2
  have hu := relax_used w v { s with used := store s.used v true }
  generalize relax w v { s with used := store s.used v true } = t at *
  simp only at hd hp hu
  have hused : ∀ x, t.used x = true ↔ (x = v ∨ s.used x = true) := by
    intro x
    rw [hu]
    by_cases hx : x = v <;> simp [store, hx]
  -- entries of used nodes, and of `v` itself, are not changed
  have hkeep : ∀ x, IsNode x → (x = v ∨ s.used x = true) →
      t.dist x = s.dist x ∧ t.prev x = s.prev x := by
    intro x hx hxu
    rw [hd x, hp x]
    have : ¬ (IsNode x ∧ w v x < INF ∧ s.dist v + w v x < s.dist x) := by
      rintro ⟨_, h1, h2⟩
      rcases hxu with rfl | hxu
      · exact hvv h1
      · have := hs.settled x v hx hvn hxu hvu
        have := hn v x
        linarith
    simp [this]
  have hle : ∀ x, t.dist x ≤ s.dist x := by
    intro x
    rw [hd x]
    split_ifs with h
    · linarith [h.2.2]
    · exact le_refl _
  have hvd : t.dist v = s.dist v := (hkeep v hvn (Or.inl rfl)).1
  refine ⟨?_, ?_, ?_, ?_, ?_⟩
  · have h1 : ¬ (IsNode 1 ∧ w v 1 < INF ∧ s.dist v + w v 1 < s.dist 1) := by
      rintro ⟨_, h1, _⟩
      exact (edge_nodes (hw v 1 h1)).2.2.1 rfl
    rw [hd 1, hp 1]
    simp only [h1, if_false]
    exact hs.src
  · intro u hun
    rw [hd u]
    split_ifs with h
    · have := (hs.range v hvn).1
      have := hn v u
      have := (hs.range u hun).2
      constructor <;> linarith [h.2.2]
    · exact hs.range u hun
  · intro u x hun hxn huu hxu
    have hxu' : ¬ (x = v ∨ s.used x = true) := by
      rw [← hused x, hxu]; simp
    push_neg at hxu'
    have hxs : s.used x = false := by
      cases h : s.used x
      · rfl
      · exact absurd h hxu'.2
    rw [(hkeep u hun ((hused u).1 huu)).1, hd x]
    have h1 : s.dist u ≤ s.dist v := by
      rcases (hused u).1 huu with rfl | h
      · exact le_refl _
      · exact hs.settled u v hun hvn h hvu
    have h2 := (hmin x hxn hxs).1
    have h3 := hn v x
    split_ifs <;> linarith
  · intro u hun hu1
    by_cases h : IsNode u ∧ w v u < INF ∧ s.dist v + w v u < s.dist u
    · right
      rw [hp u, hd u, if_pos h, if_pos h, hvd]
      refine ⟨(hused v).2 (Or.inl rfl), h.2.1, rfl, ?_⟩
      have := (hs.range u hun).2
      linarith [h.2.2]
    · rw [hp u, hd u, if_neg h, if_neg h]
      rcases hs.tree u hun hu1 with h0 | ⟨h1, h2, h3, h4⟩
      · exact Or.inl h0
      · right
        have hpn := (edge_nodes (hw _ _ h2)).1
        refine ⟨(hused _).2 (Or.inr h1), h2, ?_, h4⟩
        rw [(hkeep _ hpn (Or.inr h1)).1]
        exact h3
  · intro x u hxn hun hxu hxw
    rw [(hkeep x hxn ((hused x).1 hxu)).1]
    rcases (hused x).1 hxu with rfl | h
    · rw [hd u]
      split_ifs with h
      · exact le_refl _
      · have : ¬ (s.dist x + w x u < s.dist u) := fun h3 => h ⟨hun, hxw, h3⟩
        linarith
    · have := hs.closed x u hxn hun h hxw
      have := hle u
      linarith

theorem Inv_init (w : Int → Int → ℚ) : Inv w init := by
  have hI := INF_pos
  refine ⟨by simp [init, store], ?_, ?_, ?_, ?_⟩
  · rintro u (rfl | rfl | rfl | rfl) <;> simp [init, store] <;> linarith
  · intro u x _ _ h
    simp [init] at h
  · rintro u (rfl | rfl | rfl | rfl) h <;> simp [init, store] at h ⊢
  · intro v u _ _ h
    simp [init] at h


theorem unusedCount_pos (s : Search) (i : Int) (hi : IsNode i) (hu : s.used i = false) :
    0 < unusedCount s := by
  rcases hi with rfl | rfl | rfl | rfl <;> simp [unusedCount, hu]

theorem unusedCount_step (w : Int → Int → ℚ) (s : Search) (v : Int) (hv : IsNode v)
    (hu : s.used v = false) :
    unusedCount (relax w v { s with used := store s.used v true }) + 1 = unusedCount s := by
  simp only [unusedCount, relax_used]
  rcases hv with rfl | rfl | rfl | rfl <;> simp [store, hu] <;> omega

/-- The main loop, started with enough iterations left, ends with every node used and the
invariant in force. -/
theorem loop_inv (w : Int → Int → ℚ) (hw : EdgesOnly w) (hn : NonNeg w) :
    ∀ (n : Nat) (s : Search), Inv w s → unusedCount s ≤ n →
      Inv w (loop w n s) ∧ ∀ i, IsNode i → (loop w n s).used i = true := by
  intro n
  induction n with
  | zero =>
    intro s hs hc
    refine ⟨by simpa [loop] using hs, ?_⟩
    intro i hi
    cases h : s.used i
    · have := unusedCount_pos s i hi h
      omega
    · simpa [loop] using h
  | succ n ih =>
    intro s hs hc
    by_cases hex : ∃ i, IsNode i ∧ s.used i = false
    · obtain ⟨hvn, hvu, _⟩ := select_min s hex
      have hne : select s ≠ -1 := by
        intro h
        rw [h] at hvn
        simp [IsNode] at hvn
      have hstep := Inv_step w hw hn s hs hex
      have hcnt := unusedCount_step w s (select s) hvn hvu
      have := ih _ hstep (by omega)
      simpa [loop, hne] using this
    · have hall : ∀ i, IsNode i → s.used i = true := by
        intro i hi
        cases h : s.used i
        · exact absurd ⟨i, hi, h⟩ hex
        · rfl
      have hsel := select_none s hall
      simp only [loop, hsel, if_true]
      exact ⟨hs, hall⟩

/-- After the search, for a matrix without negative entries whose finite entries sit on the
modelled edges: the invariant holds and all four nodes are settled. -/
theorem search_inv (w : Int → Int → ℚ) (hw : EdgesOnly w) (hn : NonNeg w) :
    Inv w (search w) ∧ ∀ i, IsNode i → (search w).used i = true := by
  apply loop_inv w hw hn 4 init (Inv_init w)
  simp [unusedCount, init]

/-! ## The adjacency costs and the predecessor links, for every input -/

/-- Closed form of the adjacency costs. -/
theorem weights_apply (inp : Input) (v u : Int) :
    weights inp v u =
      if v = 2 ∧ u = 4 ∧ inp.d24 > 0 then inp.d24 * inp.consumption * inp.cost4
      else if v = 1 ∧ u = 3 ∧ inp.d13 > 0 then inp.d13 * inp.consumption * inp.cost3
      else if v = 3 ∧ u = 4 ∧ inp.d34 > 0 then inp.d34 * inp.consumption * inp.cost4
      else if v = 2 ∧ u = 3 ∧ inp.d23 > 0 then inp.d23 * inp.consumption * inp.cost3
      else if v = 1 ∧ u = 2 ∧ inp.d12 > 0 then inp.d12 * inp.consumption * inp.cost2
      else INF := by
  unfold weights
  by_cases h1 : inp.d12 > 0 <;> by_cases h2 : inp.d23 > 0 <;> by_cases h3 : inp.d34 > 0 <;>
    by_cases h4 : inp.d13 > 0 <;> by_cases h5 : inp.d24 > 0 <;>
    simp only [h1, h2, h3, h4, h5, store2, nodeCost, if_true, if_false, and_true, and_false] <;>
    norm_num

theorem weights_edgesOnly (inp : Input) : EdgesOnly (weights inp) := by
  intro v u h
  rw [weights_apply] at h
  simp only [IsEdge]
  split_ifs at h with h1 h2 h3 h4 h5
  · exact Or.inr (Or.inr (Or.inr (Or.inr ⟨h1.1, h1.2.1⟩)))
  · exact Or.inr (Or.inr (Or.inr (Or.inl ⟨h2.1, h2.2.1⟩)))
  · exact Or.inr (Or.inr (Or.inl ⟨h3.1, h3.2.1⟩))
  · exact Or.inr (Or.inl ⟨h4.1, h4.2.1⟩)
  · exact Or.inl ⟨h5.1, h5.2.1⟩
  · exact absurd h (lt_irrefl _)

theorem weights_12 (inp : Input) :
    weights inp 1 2 = if inp.d12 > 0 then inp.d12 * inp.consumption * inp.cost2 else INF := by
  rw [weights_apply]; norm_num

theorem weights_23 (inp : Input) :
    weights inp 2 3 = if inp.d23 > 0 then inp.d23 * inp.consumption * inp.cost3 else INF := by
  rw [weights_apply]; norm_num

theorem weights_34 (inp : Input) :
    weights inp 3 4 = if inp.d34 > 0 then inp.d34 * inp.consumption * inp.cost4 else INF := by
  rw [weights_apply]; norm_num

theorem weights_13 (inp : Input) :
    weights inp 1 3 = if inp.d13 > 0 then inp.d13 * inp.consumption * inp.cost3 else INF := by
  rw [weights_apply]; norm_num

theorem weights_24 (inp : Input) :
    weights inp 2 4 = if inp.d24 > 0 then inp.d24 * inp.consumption * inp.cost4 else INF := by
  rw [weights_apply]; norm_num

theorem relaxStep_prevOK (w : Int → Int → ℚ) (v : Int) (s : Search) (u : Int)
    (hs : PrevOK w s) : PrevOK w (relaxStep w v s u) := by
  intro x
  rw [relaxStep_prev]
  split_ifs with h
  · right
    rw [h.1]
    exact h.2.1
  · exact hs x

theorem relax_prevOK (w : Int → Int → ℚ) (v : Int) (s : Search) (hs : PrevOK w s) :
    PrevOK w (relax w v s) := by
  simp only [relax, List.foldl]
  exact relaxStep_prevOK _ _ _ _ (relaxStep_prevOK _ _ _ _ (relaxStep_prevOK _ _ _ _
    (relaxStep_prevOK _ _ _ _ hs)))

theorem loop_prevOK (w : Int → Int → ℚ) :
    ∀ (n : Nat) (s : Search), PrevOK w s → PrevOK w (loop w n s) := by
  intro n
  induction n with
  | zero => intro s hs; simpa [loop] using hs
  | succ n ih =>
    intro s hs
    simp only [loop]
    split_ifs
    · exact hs
    · apply ih
      apply relax_prevOK
      exact hs

/-- For every weight matrix, the predecessor links left by the search follow entries below
`INF`. -/
theorem search_prevOK (w : Int → Int → ℚ) : PrevOK w (search w) := by
  apply loop_prevOK
  intro u
  left
  rfl

/-- For every input: the possible predecessor links after the search. -/
theorem search_prev_shape (inp : Input) :
    (search (weights inp)).prev 1 = -1 ∧
    ((search (weights inp)).prev 2 = -1 ∨ ((search (weights inp)).prev 2 = 1 ∧ 0 < inp.d12)) ∧
    ((search (weights inp)).prev 3 = -1 ∨ ((search (weights inp)).prev 3 = 1 ∧ 0 < inp.d13) ∨
      ((search (weights inp)).prev 3 = 2 ∧ 0 < inp.d23)) ∧
    ((search (weights inp)).prev 4 = -1 ∨ ((search (weights inp)).prev 4 = 2 ∧ 0 < inp.d24) ∨
      ((search (weights inp)).prev 4 = 3 ∧ 0 < inp.d34)) := by
  have key : ∀ u, (search (weights inp)).prev u = -1 ∨
      ∃ v, (search (weights inp)).prev u = v ∧ weights inp v u < INF := by
    intro u
    rcases search_prevOK (weights inp) u with h | h
    · exact Or.inl h
    · exact Or.inr ⟨_, rfl, h⟩
  have hI : ¬ (INF < INF) := lt_irrefl _
  refine ⟨?_, ?_, ?_, ?_⟩
  · rcases key 1 with h | ⟨v, hv, hw⟩
    · exact h
    · rw [weights_apply] at hw
      norm_num at hw
  · rcases key 2 with h | ⟨v, hv, hw⟩
    · exact Or.inl h
    · rw [weights_apply] at hw
      norm_num at hw
      split_ifs at hw with h1
      · exact Or.inr ⟨by rw [hv]; exact h1.1, h1.2⟩
      · exact absurd hw hI
  · rcases key 3 with h | ⟨v, hv, hw⟩
    · exact Or.inl h
    · rw [weights_apply] at hw
      norm_num at hw
      split_ifs at hw with h1 h2
      · exact Or.inr (Or.inl ⟨by rw [hv]; exact h1.1, h1.2⟩)
      · exact Or.inr (Or.inr ⟨by rw [hv]; exact h2.1, h2.2⟩)
      · exact absurd hw hI
  · rcases key 4 with h | ⟨v, hv, hw⟩
    · exact Or.inl h
    · rw [weights_apply] at hw
      norm_num at hw
      split_ifs at hw with h1 h2
      · exact Or.inr (Or.inl ⟨by rw [hv]; exact h1.1, h1.2⟩)
      · exact Or.inr (Or.inr ⟨by rw [hv]; exact h2.1, h2.2⟩)
      · exact absurd hw hI

/-! ## The report as a function of the predecessor links -/

theorem main_no_path (inp : Input) (h4 : (search (weights inp)).prev 4 = -1) :
    main inp = some (Outcome.error "no path") := by
  simp [main, h4]

theorem main_24 (inp : Input) (h4 : (search (weights inp)).prev 4 = 2)
    (h2 : (search (weights inp)).prev 2 = -1) :
    main inp = some (Outcome.ok [2, 4] ((search (weights inp)).dist 4) inp.d24
      socTimeline [⟨1, 4, (search (weights inp)).dist 4⟩]) := by
  simp only [main]
  generalize search (weights inp) = s at *
  simp [walk, h4, h2, reversePath, swapStep, totalDistance, distStep, store, List.range_succ]

theorem main_124 (inp : Input) (h4 : (search (weights inp)).prev 4 = 2)
    (h2 : (search (weights inp)).prev 2 = 1) (h1 : (search (weights inp)).prev 1 = -1) :
    main inp = some (Outcome.ok [1, 2, 4] ((search (weights inp)).dist 4) (inp.d12 + inp.d24)
      socTimeline [⟨1, 2, (search (weights inp)).dist 2⟩]) := by
  simp only [main]
  generalize search (weights inp) = s at *
  simp [walk, h4, h2, h1, reversePath, swapStep, totalDistance, distStep, store, List.range_succ]

theorem main_34 (inp : Input) (h4 : (search (weights inp)).prev 4 = 3)
    (h3 : (search (weights inp)).prev 3 = -1) :
    main inp = some (Outcome.ok [3, 4] ((search (weights inp)).dist 4) inp.d34
      socTimeline [⟨1, 4, (search (weights inp)).dist 4⟩]) := by
  simp only [main]
  generalize search (weights inp) = s at *
  simp [walk, h4, h3, reversePath, swapStep, totalDistance, distStep, store, List.range_succ]

theorem main_134 (inp : Input) (h4 : (search (weights inp)).prev 4 = 3)
    (h3 : (search (weights inp)).prev 3 = 1) (h1 : (search (weights inp)).prev 1 = -1) :
    main inp = some (Outcome.ok [1, 3, 4] ((search (weights inp)).dist 4) (inp.d13 + inp.d34)
      socTimeline [⟨1, 3, (search (weights inp)).dist 3⟩]) := by
  simp only [main]
  generalize search (weights inp) = s at *
  simp [walk, h4, h3, h1, reversePath, swapStep, totalDistance, distStep, store, List.range_succ]

theorem main_234 (inp : Input) (h4 : (search (weights inp)).prev 4 = 3)
    (h3 : (search (weights inp)).prev 3 = 2) (h2 : (search (weights inp)).prev 2 = -1) :
    main inp = some (Outcome.ok [2, 3, 4] ((search (weights inp)).dist 4) (inp.d23 + inp.d34)
      socTimeline [⟨1, 3, (search (weights inp)).dist 3⟩]) := by
  simp only [main]
  generalize search (weights inp) = s at *
  simp [walk, h4, h3, h2, reversePath, swapStep, totalDistance, distStep, store, List.range_succ]

theorem main_1234 (inp : Input) (h4 : (search (weights inp)).prev 4 = 3)
    (h3 : (search (weights inp)).prev 3 = 2)
    (h2 : (search (weights inp)).prev 2 = 1) (h1 : (search (weights inp)).prev 1 = -1) :
    main inp = some (Outcome.ok [1, 2, 3, 4] ((search (weights inp)).dist 4)
      (inp.d12 + inp.d23 + inp.d34)
      socTimeline [⟨1, 2, (search (weights inp)).dist 2⟩]) := by
  simp only [main]
  generalize search (weights inp) = s at *
  simp [walk, h4, h3, h2, h1, reversePath, swapStep, totalDistance, distStep, store, List.range_succ]

/-! ## Inputs whose adjacency costs are not negative -/

theorem weights_nonNeg (inp : Input) (hc : 0 ≤ inp.consumption) (h2 : 0 ≤ inp.cost2)
    (h3 : 0 ≤ inp.cost3) (h4 : 0 ≤ inp.cost4) : NonNeg (weights inp) := by
  intro v u
  rw [weights_apply]
  have hI := INF_pos
  split_ifs with a b c d e
  · exact mul_nonneg (mul_nonneg (le_of_lt a.2.2) hc) h4
  · exact mul_nonneg (mul_nonneg (le_of_lt b.2.2) hc) h3
  · exact mul_nonneg (mul_nonneg (le_of_lt c.2.2) hc) h4
  · exact mul_nonneg (mul_nonneg (le_of_lt d.2.2) hc) h3
  · exact mul_nonneg (mul_nonneg (le_of_lt e.2.2) hc) h2
  · exact le_of_lt hI

/-- The search result for an input whose adjacency costs are not negative: upper bounds of
`dist[4]` by the three routes, and the four possible reports with the values of `dist`. -/
theorem valid_outcome (inp : Input) (hn : NonNeg (weights inp)) :
    ((0 < inp.d12 → 0 < inp.d24 →
        inp.d12 * inp.consumption * inp.cost2 + inp.d24 * inp.consumption * inp.cost4 < INF →
        (search (weights inp)).dist 4 ≤
          inp.d12 * inp.consumption * inp.cost2 + inp.d24 * inp.consumption * inp.cost4) ∧
     (0 < inp.d12 → 0 < inp.d23 → 0 < inp.d34 →
        inp.d12 * inp.consumption * inp.cost2 + inp.d23 * inp.consumption * inp.cost3 +
          inp.d34 * inp.consumption * inp.cost4 < INF →
        (search (weights inp)).dist 4 ≤
          inp.d12 * inp.consumption * inp.cost2 + inp.d23 * inp.consumption * inp.cost3 +
            inp.d34 * inp.consumption * inp.cost4) ∧
     (0 < inp.d13 → 0 < inp.d34 →
        inp.d13 * inp.consumption * inp.cost3 + inp.d34 * inp.consumption * inp.cost4 < INF →
        (search (weights inp)).dist 4 ≤
          inp.d13 * inp.consumption * inp.cost3 + inp.d34 * inp.consumption * inp.cost4)) ∧
    (((search (weights inp)).dist 4 = INF ∧ main inp = some (Outcome.error "no path")) ∨
     ((0 < inp.d12 ∧ 0 < inp.d24) ∧ (search (weights inp)).dist 4 < INF ∧
        (search (weights inp)).dist 2 = inp.d12 * inp.consumption * inp.cost2 ∧
        (search (weights inp)).dist 4 =
          inp.d12 * inp.consumption * inp.cost2 + inp.d24 * inp.consumption * inp.cost4 ∧
        main inp = some (Outcome.ok [1, 2, 4] ((search (weights inp)).dist 4)
          (inp.d12 + inp.d24) socTimeline [⟨1, 2, (search (weights inp)).dist 2⟩])) ∨
     ((0 < inp.d12 ∧ 0 < inp.d23 ∧ 0 < inp.d34) ∧ (search (weights inp)).dist 4 < INF ∧
        (search (weights inp)).dist 2 = inp.d12 * inp.consumption * inp.cost2 ∧
        (search (weights inp)).dist 4 =
          inp.d12 * inp.consumption * inp.cost2 + inp.d23 * inp.consumption * inp.cost3 +
            inp.d34 * inp.consumption * inp.cost4 ∧
        main inp = some (Outcome.ok [1, 2, 3, 4] ((search (weights inp)).dist 4)
          (inp.d12 + inp.d23 + inp.d34) socTimeline
          [⟨1, 2, (search (weights inp)).dist 2⟩])) ∨
     ((0 < inp.d13 ∧ 0 < inp.d34) ∧ (search (weights inp)).dist 4 < INF ∧
        (search (weights inp)).dist 3 = inp.d13 * inp.consumption * inp.cost3 ∧
        (search (weights inp)).dist 4 =
          inp.d13 * inp.consumption * inp.cost3 + inp.d34 * inp.consumption * inp.cost4 ∧
        main inp = some (Outcome.ok [1, 3, 4] ((search (weights inp)).dist 4)
          (inp.d13 + inp.d34) socTimeline [⟨1, 3, (search (weights inp)).dist 3⟩]))) := by
  obtain ⟨hinv, hall⟩ := search_inv (weights inp) (weights_edgesOnly inp) hn
  obtain ⟨hp1, hp2, hp3, hp4⟩ := search_prev_shape inp
  have n1 : IsNode 1 := by simp [IsNode]
  have n2 : IsNode 2 := by simp [IsNode]
  have n3 : IsNode 3 := by simp [IsNode]
  have n4 : IsNode 4 := by simp [IsNode]
  have c12 := hinv.closed 1 2 n1 n2 (hall 1 n1)
  have c23 := hinv.closed 2 3 n2 n3 (hall 2 n2)
  have c34 := hinv.closed 3 4 n3 n4 (hall 3 n3)
  have c13 := hinv.closed 1 3 n1 n3 (hall 1 n1)
  have c24 := hinv.closed 2 4 n2 n4 (hall 2 n2)
  have t2 := hinv.tree 2 n2 (by norm_num)
  have t3 := hinv.tree 3 n3 (by norm_num)
  have t4 := hinv.tree 4 n4 (by norm_num)
  have hd1 := hinv.src.1
  have g12 := hn 1 2
  have g23 := hn 2 3
  have g34 := hn 3 4
  have g13 := hn 1 3
  have g24 := hn 2 4
  have w12 := weights_12 inp
  have w23 := weights_23 inp
  have w34 := weights_34 inp
  have w13 := weights_13 inp
  have w24 := weights_24 inp
  have he := weights_edgesOnly inp
  have m0 := main_no_path inp
  have m124 := main_124 inp
  have m1234 := main_1234 inp
  have m134 := main_134 inp
  generalize main inp = out at *
  generalize search (weights inp) = s at *
  generalize weights inp = w at *
  have e2 : ¬ w (-1) 2 < INF := fun h => by have := he _ _ h; simp [IsEdge] at this
  have e3 : ¬ w (-1) 3 < INF := fun h => by have := he _ _ h; simp [IsEdge] at this
  have e4 : ¬ w (-1) 4 < INF := fun h => by have := he _ _ h; simp [IsEdge] at this
  have hI : ¬ (INF < INF) := lt_irrefl _
  refine ⟨⟨?_, ?_, ?_⟩, ?_⟩
  · intro a b hlt
    rw [if_pos a] at w12
    rw [if_pos b] at w24
    rw [w12] at c12 g12
    rw [w24] at c24 g24
    have := c12 (by linarith)
    have := c24 (by linarith)
    linarith
  · intro a b c hlt
    rw [if_pos a] at w12
    rw [if_pos b] at w23
    rw [if_pos c] at w34
    rw [w12] at c12 g12
    rw [w23] at c23 g23
    rw [w34] at c34 g34
    have := c12 (by linarith)
    have := c23 (by linarith)
    have := c34 (by linarith)
    linarith
  · intro a b hlt
    rw [if_pos a] at w13
    rw [if_pos b] at w34
    rw [w13] at c13 g13
    rw [w34] at c34 g34
    have := c13 (by linarith)
    have := c34 (by linarith)
    linarith
  · rcases t4 with ⟨h4, hd4⟩ | ⟨_, hw4, hd4, hlt4⟩
    · exact Or.inl ⟨hd4, m0 h4⟩
    right
    rcases hp4 with h4 | ⟨h4, a24⟩ | ⟨h4, a34⟩
    · rw [h4] at hw4
      exact absurd hw4 e4
    · -- the last hop is 2-4
      rw [h4] at hw4 hd4
      rw [if_pos a24] at w24
      rcases t2 with ⟨_, hd2⟩ | ⟨_, hw2, hd2, hlt2⟩
      · linarith
      rcases hp2 with h2 | ⟨h2, a12⟩
      · rw [h2] at hw2
        exact absurd hw2 e2
      · rw [h2] at hw2 hd2
        rw [if_pos a12] at w12
        refine Or.inl ⟨⟨a12, a24⟩, hlt4, by linarith, by linarith, m124 h4 h2 hp1⟩
    · -- the last hop is 3-4
      rw [h4] at hw4 hd4
      rw [if_pos a34] at w34
      rcases t3 with ⟨_, hd3⟩ | ⟨_, hw3, hd3, hlt3⟩
      · linarith
      rcases hp3 with h3 | ⟨h3, a13⟩ | ⟨h3, a23⟩
      · rw [h3] at hw3
        exact absurd hw3 e3
      · rw [h3] at hw3 hd3
        rw [if_pos a13] at w13
        refine Or.inr (Or.inr ⟨⟨a13, a34⟩, hlt4, by linarith, by linarith, m134 h4 h3 hp1⟩)
      · rw [h3] at hw3 hd3
        rw [if_pos a23] at w23
        rcases t2 with ⟨_, hd2⟩ | ⟨_, hw2, hd2, hlt2⟩
        · linarith
        rcases hp2 with h2 | ⟨h2, a12⟩
        · rw [h2] at hw2
          exact absurd hw2 e2
        · rw [h2] at hw2 hd2
          rw [if_pos a12] at w12
          refine Or.inr (Or.inl ⟨⟨a12, a23, a34⟩, hlt4, by linarith, by linarith,
            m1234 h4 h3 h2 hp1⟩)

/-- The report for the scenario of the specification, for any price of node 1. -/
theorem scenario_main (c1 : ℚ) :
    main (scenario c1) =
      some (Outcome.ok [1, 2, 4] (36 / 25) 25 socTimeline [⟨1, 2, 3 / 5⟩]) := by
  have hn : NonNeg (weights (scenario c1)) :=
    weights_nonNeg _ (by norm_num [scenario]) (by norm_num [scenario]) (by norm_num [scenario])
      (by norm_num [scenario])
  obtain ⟨⟨b1, -, -⟩, hcase⟩ := valid_outcome (scenario c1) hn
  have hb := b1 (by norm_num [scenario]) (by norm_num [scenario]) (by norm_num [scenario, INF])
  rcases hcase with ⟨h, -⟩ | ⟨-, -, h2, h4, hm⟩ | ⟨-, -, -, h4, -⟩ | ⟨-, -, -, h4, -⟩
  · rw [h] at hb
    norm_num [scenario, INF] at hb
  · rw [hm, h2, h4]
    norm_num [scenario]
  · rw [h4] at hb
    norm_num [scenario] at hb
  · rw [h4] at hb
    norm_num [scenario] at hb

/-! ## The routes in the vocabulary of the claims -/

theorem routePresent_124 (inp : Input) :
    RoutePresent inp [1, 2, 4] ↔ 0 < inp.d12 ∧ 0 < inp.d24 := by
  simp [RoutePresent, Present, IsEdge, edgeDistance]

theorem routePresent_1234 (inp : Input) :
    RoutePresent inp [1, 2, 3, 4] ↔ 0 < inp.d12 ∧ 0 < inp.d23 ∧ 0 < inp.d34 := by
  simp [RoutePresent, Present, IsEdge, edgeDistance]

theorem routePresent_134 (inp : Input) :
    RoutePresent inp [1, 3, 4] ↔ 0 < inp.d13 ∧ 0 < inp.d34 := by
  simp [RoutePresent, Present, IsEdge, edgeDistance]

theorem routeCost_124 (inp : Input) :
    routeCost inp [1, 2, 4] =
      inp.d12 * inp.consumption * inp.cost2 + inp.d24 * inp.consumption * inp.cost4 := by
  simp [routeCost, edgeCost, edgeDistance, nodeCost]

theorem routeCost_1234 (inp : Input) :
    routeCost inp [1, 2, 3, 4] =
      inp.d12 * inp.consumption * inp.cost2 + inp.d23 * inp.consumption * inp.cost3 +
        inp.d34 * inp.consumption * inp.cost4 := by
  simp [routeCost, edgeCost, edgeDistance, nodeCost, add_assoc]

theorem routeCost_134 (inp : Input) :
    routeCost inp [1, 3, 4] =
      inp.d13 * inp.consumption * inp.cost3 + inp.d34 * inp.consumption * inp.cost4 := by
  simp [routeCost, edgeCost, edgeDistance, nodeCost]

theorem routeDistance_124 (inp : Input) :
    routeDistance inp [1, 2, 4] = inp.d12 + inp.d24 := by
  simp [routeDistance, edgeDistance]

theorem routeDistance_1234 (inp : Input) :
    routeDistance inp [1, 2, 3, 4] = inp.d12 + inp.d23 + inp.d34 := by
  simp [routeDistance, edgeDistance, add_assoc]

theorem routeDistance_134 (inp : Input) :
    routeDistance inp [1, 3, 4] = inp.d13 + inp.d34 := by
  simp [routeDistance, edgeDistance]

/-- The outcome for an input whose adjacency costs are not negative, in terms of the three
routes: `dist[4]` is a lower bound of the cost of every present route that costs less than
`INF`, and the report is either "no path" with `dist[4] = INF`, or one of the present routes
together with its cost and its distance. -/
theorem route_outcome (inp : Input) (hn : NonNeg (weights inp)) :
    (∀ r ∈ routes, RoutePresent inp r → routeCost inp r < INF →
        (search (weights inp)).dist 4 ≤ routeCost inp r) ∧
    (((search (weights inp)).dist 4 = INF ∧ main inp = some (Outcome.error "no path")) ∨
      ∃ r ∈ routes, RoutePresent inp r ∧ (search (weights inp)).dist 4 < INF ∧
        (search (weights inp)).dist 4 = routeCost inp r ∧
        ∃ dbg, main inp = some (Outcome.ok r ((search (weights inp)).dist 4)
          (routeDistance inp r) socTimeline dbg)) := by
  obtain ⟨⟨b1, b2, b3⟩, hcase⟩ := valid_outcome inp hn
  constructor
  · intro r hr hp hc
    simp only [routes, List.mem_cons, List.mem_singleton, List.not_mem_nil, or_false] at hr
    rcases hr with rfl | rfl | rfl
    · rw [routeCost_124] at hc ⊢
      rw [routePresent_124] at hp
      exact b1 hp.1 hp.2 hc
    · rw [routeCost_1234] at hc ⊢
      rw [routePresent_1234] at hp
      exact b2 hp.1 hp.2.1 hp.2.2 hc
    · rw [routeCost_134] at hc ⊢
      rw [routePresent_134] at hp
      exact b3 hp.1 hp.2 hc
  · rcases hcase with h | ⟨hp, hlt, -, h4, hm⟩ | ⟨hp, hlt, -, h4, hm⟩ | ⟨hp, hlt, -, h4, hm⟩
    · exact Or.inl h
    · refine Or.inr ⟨[1, 2, 4], by simp [routes], (routePresent_124 inp).2 hp, hlt, ?_,
        [⟨1, 2, (search (weights inp)).dist 2⟩], ?_⟩
      · rw [routeCost_124]; exact h4
      · rw [routeDistance_124]; exact hm
    · refine Or.inr ⟨[1, 2, 3, 4], by simp [routes], (routePresent_1234 inp).2 hp, hlt, ?_,
        [⟨1, 2, (search (weights inp)).dist 2⟩], ?_⟩
      · rw [routeCost_1234]; exact h4
      · rw [routeDistance_1234]; exact hm
    · refine Or.inr ⟨[1, 3, 4], by simp [routes], (routePresent_134 inp).2 hp, hlt, ?_,
        [⟨1, 3, (search (weights inp)).dist 3⟩], ?_⟩
      · rw [routeCost_134]; exact h4
      · rw [routeDistance_134]; exact hm

theorem Valid.nonNeg {inp : Input} (hv : Valid inp) : NonNeg (weights inp) :=
  weights_nonNeg inp (le_of_lt hv.consumption_pos) hv.cost2_nonneg hv.cost3_nonneg
    hv.cost4_nonneg

/-- With non-negative adjacency costs and present routes below `INF`: a present route makes
the program return a path whose cost is least among the present routes. -/
theorem optimal_of_nonNeg (inp : Input) (hn : NonNeg (weights inp)) (hb : CostsBelowINF inp)
    (hex : ∃ r ∈ routes, RoutePresent inp r) :
    ∃ p td soc dbg,
      main inp = some (Outcome.ok p ((search (weights inp)).dist 4) td soc dbg) ∧
      (∃ r ∈ routes, RoutePresent inp r ∧ (search (weights inp)).dist 4 = routeCost inp r) ∧
      ∀ r ∈ routes, RoutePresent inp r → (search (weights inp)).dist 4 ≤ routeCost inp r := by
  obtain ⟨hle, hcase⟩ := route_outcome inp hn
  have hmin : ∀ r ∈ routes, RoutePresent inp r →
      (search (weights inp)).dist 4 ≤ routeCost inp r :=
    fun r hr hp => hle r hr hp (hb r hr hp)
  rcases hcase with ⟨h, -⟩ | ⟨r, hr, hp, -, hc, dbg, hm⟩
  · obtain ⟨r, hr, hp⟩ := hex
    have h1 := hmin r hr hp
    have h2 := hb r hr hp
    rw [h] at h1
    exact absurd (lt_of_le_of_lt h1 h2) (lt_irrefl _)
  · exact ⟨r, _, _, dbg, hm, ⟨r, hr, hp, hc⟩, hmin⟩

/-- Claim C1. Optimality of the reported cost: for an input with consumption `> 0`, prices
`>= 0`, distances `>= 0` and every present route costing less than `INF`, if one of the
routes 1-2-4, 1-2-3-4, 1-3-4 has all its edges present then the program returns a path, and
the reported `total_cost` (`dist[4]`) is the cost of a present route and is at most the cost
of every present route, that is, their minimum. -/
theorem C1_optimal_cost (inp : Input) (hv : Valid inp) (hb : CostsBelowINF inp)
    (hex : ∃ r ∈ routes, RoutePresent inp r) :
    ∃ p c td soc dbg,
      main inp = some (Outcome.ok p c td soc dbg) ∧ c = (search (weights inp)).dist 4 ∧
      (∃ r ∈ routes, RoutePresent inp r ∧ c = routeCost inp r) ∧
      ∀ r ∈ routes, RoutePresent inp r → c ≤ routeCost inp r := by
  obtain ⟨p, td, soc, dbg, hm, h1, h2⟩ := optimal_of_nonNeg inp hv.nonNeg hb hex
  exact ⟨p, _, td, soc, dbg, hm, rfl, h1, h2⟩

theorem scenario_valid (c1 : ℚ) (h : 0 ≤ c1) : Valid (scenario c1) := by
  constructor <;> norm_num [scenario, h]

theorem scenario_below (c1 : ℚ) : CostsBelowINF (scenario c1) := by
  intro r hr _
  simp only [routes, List.mem_cons, List.mem_singleton, List.not_mem_nil, or_false] at hr
  rcases hr with rfl | rfl | rfl
  · rw [routeCost_124]; norm_num [scenario, INF]
  · rw [routeCost_1234]; norm_num [scenario, INF]
  · rw [routeCost_134]; norm_num [scenario, INF]

theorem scenario_present (c1 : ℚ) : RoutePresent (scenario c1) [1, 2, 4] := by
  rw [routePresent_124]; norm_num [scenario]

/-- Witness of C1: the scenario of the specification with price 0 at node 1. -/
theorem C1_optimal_cost_witness :
    Valid (scenario 0) ∧ CostsBelowINF (scenario 0) ∧
    (∃ r ∈ routes, RoutePresent (scenario 0) r) ∧
    ∃ p c td soc dbg,
      main (scenario 0) = some (Outcome.ok p c td soc dbg) ∧
      c = (search (weights (scenario 0))).dist 4 ∧
      (∃ r ∈ routes, RoutePresent (scenario 0) r ∧ c = routeCost (scenario 0) r) ∧
      ∀ r ∈ routes, RoutePresent (scenario 0) r → c ≤ routeCost (scenario 0) r :=
  ⟨scenario_valid 0 (le_refl _), scenario_below 0,
    ⟨[1, 2, 4], by simp [routes], scenario_present 0⟩,
    C1_optimal_cost (scenario 0) (scenario_valid 0 (le_refl _)) (scenario_below 0)
      ⟨[1, 2, 4], by simp [routes], scenario_present 0⟩⟩

/-- Claim C2. The scenario of the specification (distances 10, 10, 10, 25, 15, consumption
0.2, prices 0.30, 0.25, 0.28 at nodes 2, 3, 4, any price at node 1): the program reports
status ok with optimal path `[1,2,4]`, total cost `36/25 = 1.44` and total distance `25`. -/
theorem C2_scenario (c1 : ℚ) :
    main (scenario c1) =
      some (Outcome.ok [1, 2, 4] (36 / 25) 25 socTimeline [⟨1, 2, 3 / 5⟩]) :=
  scenario_main c1

/-- Claim C3. The no-path outcome: for an input with consumption `> 0`, prices `>= 0`,
distances `>= 0` and present routes below `INF`, the program reports the error "no path"
exactly when none of the routes 1-2-4, 1-2-3-4, 1-3-4 has all its edges present; and when
none has, no path is returned. -/
theorem C3_no_path_iff (inp : Input) (hv : Valid inp) (hb : CostsBelowINF inp) :
    (main inp = some (Outcome.error "no path") ↔ ¬ ∃ r ∈ routes, RoutePresent inp r) ∧
    ((¬ ∃ r ∈ routes, RoutePresent inp r) →
      ∀ p c td soc dbg, main inp ≠ some (Outcome.ok p c td soc dbg)) := by
  have key : main inp = some (Outcome.error "no path") ↔ ¬ ∃ r ∈ routes, RoutePresent inp r := by
    constructor
    · intro hm hex
      obtain ⟨p, td, soc, dbg, hm2, -⟩ := optimal_of_nonNeg inp hv.nonNeg hb hex
      rw [hm] at hm2
      simp at hm2
    · intro hno
      rcases (route_outcome inp hv.nonNeg).2 with ⟨-, hm⟩ | ⟨r, hr, hp, -⟩
      · exact hm
      · exact absurd ⟨r, hr, hp⟩ hno
  refine ⟨key, ?_⟩
  intro hno p c td soc dbg hm
  rw [key.2 hno] at hm
  simp at hm

theorem noRoute_valid : Valid noRouteInput := by
  constructor <;> norm_num [noRouteInput, scenario]

theorem noRoute_absent : ¬ ∃ r ∈ routes, RoutePresent noRouteInput r := by
  rintro ⟨r, hr, hp⟩
  simp only [routes, List.mem_cons, List.mem_singleton, List.not_mem_nil, or_false] at hr
  rcases hr with rfl | rfl | rfl
  · rw [routePresent_124] at hp; norm_num [noRouteInput, scenario] at hp
  · rw [routePresent_1234] at hp; norm_num [noRouteInput, scenario] at hp
  · rw [routePresent_134] at hp; norm_num [noRouteInput, scenario] at hp

theorem noRoute_below : CostsBelowINF noRouteInput :=
  fun r hr hp => absurd ⟨r, hr, hp⟩ noRoute_absent

/-- Witness of C3: the scenario without the edges into node 4 is valid and has no route. -/
theorem C3_no_path_iff_witness :
    Valid noRouteInput ∧ CostsBelowINF noRouteInput ∧
    (main noRouteInput = some (Outcome.error "no path") ↔
      ¬ ∃ r ∈ routes, RoutePresent noRouteInput r) ∧
    ((¬ ∃ r ∈ routes, RoutePresent noRouteInput r) →
      ∀ p c td soc dbg, main noRouteInput ≠ some (Outcome.ok p c td soc dbg)) :=
  ⟨noRoute_valid, noRoute_below, C3_no_path_iff noRouteInput noRoute_valid noRoute_below⟩

/-- Claim C4. Cost cross-check: for an input with consumption `> 0`, prices `>= 0` and
distances `>= 0` for which a path is returned, the reported `total_cost` is `dist[4]` and
equals the re-summed edge costs `distance * consumption * price(destination)` along the
returned path. -/
theorem C4_cost_crosscheck (inp : Input) (hv : Valid inp) (p : List Int) (c td : ℚ)
    (soc : List SocPoint) (dbg : List DebugStep)
    (h : main inp = some (Outcome.ok p c td soc dbg)) :
    c = (search (weights inp)).dist 4 ∧ c = routeCost inp p := by
  rcases (route_outcome inp hv.nonNeg).2 with ⟨-, hm⟩ | ⟨r, -, -, -, hc, dbg2, hm⟩
  · rw [hm] at h
    simp at h
  · rw [hm] at h
    simp only [Option.some.injEq, Outcome.ok.injEq] at h
    obtain ⟨rfl, rfl, -⟩ := h
    exact ⟨rfl, hc⟩

/-- Witness of C4: the scenario of the specification. -/
theorem C4_cost_crosscheck_witness :
    Valid (scenario 0) ∧
    main (scenario 0) = some (Outcome.ok [1, 2, 4] (36 / 25) 25 socTimeline [⟨1, 2, 3 / 5⟩]) ∧
    (36 / 25 : ℚ) = (search (weights (scenario 0))).dist 4 ∧
    (36 / 25 : ℚ) = routeCost (scenario 0) [1, 2, 4] :=
  ⟨scenario_valid 0 (le_refl _), scenario_main 0,
    C4_cost_crosscheck (scenario 0) (scenario_valid 0 (le_refl _)) _ _ _ _ _ (scenario_main 0)⟩

/-- For every input whatsoever the report is "no path" or one of six node sequences ending in
node 4, all of whose hops are present edges, with `dist[4]` as cost and the sum of the hop
distances as distance. -/
theorem main_total (inp : Input) :
    main inp = some (Outcome.error "no path") ∨
    ∃ p ∈ [[2, 4], [1, 2, 4], [3, 4], [1, 3, 4], [2, 3, 4], [1, 2, 3, 4]],
      RoutePresent inp p ∧
      ∃ dbg, main inp = some (Outcome.ok p ((search (weights inp)).dist 4)
        (routeDistance inp p) socTimeline dbg) := by
  obtain ⟨hp1, hp2, hp3, hp4⟩ := search_prev_shape inp
  rcases hp4 with h4 | ⟨h4, a24⟩ | ⟨h4, a34⟩
  · exact Or.inl (main_no_path inp h4)
  · rcases hp2 with h2 | ⟨h2, a12⟩
    · refine Or.inr ⟨[2, 4], by simp, ?_, [⟨1, 4, (search (weights inp)).dist 4⟩], ?_⟩
      · simp [RoutePresent, Present, IsEdge, edgeDistance, a24]
      · rw [main_24 inp h4 h2]
        simp [routeDistance, edgeDistance]
    · refine Or.inr ⟨[1, 2, 4], by simp, (routePresent_124 inp).2 ⟨a12, a24⟩,
        [⟨1, 2, (search (weights inp)).dist 2⟩], ?_⟩
      rw [main_124 inp h4 h2 hp1, routeDistance_124]
  · rcases hp3 with h3 | ⟨h3, a13⟩ | ⟨h3, a23⟩
    · refine Or.inr ⟨[3, 4], by simp, ?_, [⟨1, 4, (search (weights inp)).dist 4⟩], ?_⟩
      · simp [RoutePresent, Present, IsEdge, edgeDistance, a34]
      · rw [main_34 inp h4 h3]
        simp [routeDistance, edgeDistance]
    · refine Or.inr ⟨[1, 3, 4], by simp, (routePresent_134 inp).2 ⟨a13, a34⟩,
        [⟨1, 3, (search (weights inp)).dist 3⟩], ?_⟩
      rw [main_134 inp h4 h3 hp1, routeDistance_134]
    · rcases hp2 with h2 | ⟨h2, a12⟩
      · refine Or.inr ⟨[2, 3, 4], by simp, ?_, [⟨1, 3, (search (weights inp)).dist 3⟩], ?_⟩
        · simp [RoutePresent, Present, IsEdge, edgeDistance, a34, a23]
        · rw [main_234 inp h4 h3 h2]
          simp [routeDistance, edgeDistance]
      · refine Or.inr ⟨[1, 2, 3, 4], by simp, (routePresent_1234 inp).2 ⟨a12, a23, a34⟩,
          [⟨1, 2, (search (weights inp)).dist 2⟩], ?_⟩
        rw [main_1234 inp h4 h3 h2 hp1, routeDistance_1234]

/-- Claim C5. Total distance re-derivation: for every input for which a path is returned, the
reported `total_distance_km` is the sum of the parsed distances of the hops of the returned
path, and every hop is one of the five modelled pairs, so that no hop contributes nothing. -/
theorem C5_total_distance (inp : Input) (p : List Int) (c td : ℚ)
    (soc : List SocPoint) (dbg : List DebugStep)
    (h : main inp = some (Outcome.ok p c td soc dbg)) :
    td = routeDistance inp p ∧ List.Chain' IsEdge p := by
  rcases main_total inp with hm | ⟨r, -, hp, dbg2, hm⟩
  · rw [hm] at h
    simp at h
  · rw [hm] at h
    simp only [Option.some.injEq, Outcome.ok.injEq] at h
    obtain ⟨rfl, -, rfl, -⟩ := h
    exact ⟨rfl, List.Chain'.imp (fun a b hab => hab.1) hp⟩

/-- Witness of C5: the scenario of the specification. -/
theorem C5_total_distance_witness :
    main (scenario 0) = some (Outcome.ok [1, 2, 4] (36 / 25) 25 socTimeline [⟨1, 2, 3 / 5⟩]) ∧
    (25 : ℚ) = routeDistance (scenario 0) [1, 2, 4] ∧ List.Chain' IsEdge [1, 2, 4] :=
  ⟨scenario_main 0, C5_total_distance (scenario 0) _ _ _ _ _ (scenario_main 0)⟩

/-- Claim C6. Path well-formedness on valid input: for an input with consumption `> 0`, prices
`>= 0` and distances `>= 0` for which a path is returned, the path starts at node 1, ends at
node 4, has between 2 and 4 nodes, repeats no node, and every consecutive pair is one of the
five modelled edges with distance `> 0`. -/
theorem C6_path_wellformed (inp : Input) (hv : Valid inp) (p : List Int) (c td : ℚ)
    (soc : List SocPoint) (dbg : List DebugStep)
    (h : main inp = some (Outcome.ok p c td soc dbg)) :
    p.head? = some 1 ∧ p.getLast? = some 4 ∧ 2 ≤ p.length ∧ p.length ≤ 4 ∧ p.Nodup ∧
      List.Chain' (Present inp) p := by
  rcases (route_outcome inp hv.nonNeg).2 with ⟨-, hm⟩ | ⟨r, hr, hp, -, -, dbg2, hm⟩
  · rw [hm] at h
    simp at h
  · rw [hm] at h
    simp only [Option.some.injEq, Outcome.ok.injEq] at h
    obtain ⟨rfl, -⟩ := h
    refine ⟨?_, ?_, ?_, ?_, ?_, hp⟩ <;>
      (simp only [routes, List.mem_cons, List.mem_singleton, List.not_mem_nil, or_false] at hr
       rcases hr with rfl | rfl | rfl <;> simp)

/-- Witness of C6: the scenario of the specification. -/
theorem C6_path_wellformed_witness :
    Valid (scenario 0) ∧
    main (scenario 0) = some (Outcome.ok [1, 2, 4] (36 / 25) 25 socTimeline [⟨1, 2, 3 / 5⟩]) ∧
    ([1, 2, 4] : List Int).head? = some 1 ∧ ([1, 2, 4] : List Int).getLast? = some 4 ∧
    2 ≤ ([1, 2, 4] : List Int).length ∧ ([1, 2, 4] : List Int).length ≤ 4 ∧
    ([1, 2, 4] : List Int).Nodup ∧ List.Chain' (Present (scenario 0)) [1, 2, 4] :=
  ⟨scenario_valid 0 (le_refl _), scenario_main 0,
    C6_path_wellformed (scenario 0) (scenario_valid 0 (le_refl _)) _ _ _ _ _ (scenario_main 0)⟩

theorem nodeCost_nonneg (inp : Input) (h1 : 0 ≤ inp.cost1) (h2 : 0 ≤ inp.cost2)
    (h3 : 0 ≤ inp.cost3) (h4 : 0 ≤ inp.cost4) (b : Int) : 0 ≤ nodeCost inp b := by
  unfold nodeCost
  split_ifs <;> first | assumption | exact le_refl _

theorem present_costs_nonneg (inp : Input) (hc : 0 ≤ inp.consumption) (h1 : 0 ≤ inp.cost1)
    (h2 : 0 ≤ inp.cost2) (h3 : 0 ≤ inp.cost3) (h4 : 0 ≤ inp.cost4) :
    ∀ a b, Present inp a b → 0 ≤ edgeCost inp a b := by
  intro a b hp
  exact mul_nonneg (mul_nonneg (le_of_lt hp.2) hc) (nodeCost_nonneg inp h1 h2 h3 h4 b)

theorem nonNeg_of_present (inp : Input) (h : ∀ a b, Present inp a b → 0 ≤ edgeCost inp a b) :
    NonNeg (weights inp) := by
  intro v u
  rw [weights_apply]
  split_ifs with a b c d e
  · have := h 2 4 (by simp [Present, IsEdge, edgeDistance, a.2.2])
    simpa [edgeCost, edgeDistance, nodeCost] using this
  · have := h 1 3 (by simp [Present, IsEdge, edgeDistance, b.2.2])
    simpa [edgeCost, edgeDistance, nodeCost] using this
  · have := h 3 4 (by simp [Present, IsEdge, edgeDistance, c.2.2])
    simpa [edgeCost, edgeDistance, nodeCost] using this
  · have := h 2 3 (by simp [Present, IsEdge, edgeDistance, d.2.2])
    simpa [edgeCost, edgeDistance, nodeCost] using this
  · have := h 1 2 (by simp [Present, IsEdge, edgeDistance, e.2.2])
    simpa [edgeCost, edgeDistance, nodeCost] using this
  · exact le_of_lt INF_pos

theorem brokenInput_search :
    (search (weights brokenInput)).prev 4 = 2 ∧ (search (weights brokenInput)).prev 2 = -1 ∧
    (search (weights brokenInput)).dist 4 = INF - 1024 := by
  norm_num [search, loop, select, selectStep, relax, relaxStep, init, store, weights, store2,
    nodeCost, INF, brokenInput]

/-- Counterexample to C7 as stated: with the single edge 2-4 and price `-1024` at node 4 the
unreached node 2, selected at distance `INF`, improves node 4 to `INF - 1024`, and the
program reports status ok with the path `[2,4]`, which does not start at node 1. -/
theorem C7_counterexample :
    main brokenInput =
      some (Outcome.ok [2, 4] (INF - 1024) 1 socTimeline [⟨1, 4, INF - 1024⟩]) ∧
    ([2, 4] : List Int).head? ≠ some 1 := by
  obtain ⟨h4, h2, d4⟩ := brokenInput_search
  refine ⟨?_, by simp⟩
  rw [main_24 _ h4 h2, d4]
  simp [brokenInput]

/-- Claim C7 as amended. For an input in which every present edge has a cost that is not
negative, the report is either the error "no path" or a path that starts at node 1 and ends
at node 4: a path whose first node is not the source is never reported. -/
theorem C7_source_reached (inp : Input)
    (hcost : ∀ a b, Present inp a b → 0 ≤ edgeCost inp a b) :
    main inp = some (Outcome.error "no path") ∨
    ∃ p c td soc dbg, main inp = some (Outcome.ok p c td soc dbg) ∧
      p.head? = some 1 ∧ p.getLast? = some 4 := by
  rcases (route_outcome inp (nonNeg_of_present inp hcost)).2 with ⟨-, hm⟩ | ⟨r, hr, -, -, -, dbg, hm⟩
  · exact Or.inl hm
  · refine Or.inr ⟨r, _, _, _, dbg, hm, ?_, ?_⟩ <;>
      (simp only [routes, List.mem_cons, List.mem_singleton, List.not_mem_nil, or_false] at hr
       rcases hr with rfl | rfl | rfl <;> simp)

/-- Witness of C7 (amended): the scenario of the specification. -/
theorem C7_source_reached_witness :
    (∀ a b, Present (scenario 0) a b → 0 ≤ edgeCost (scenario 0) a b) ∧
    (main (scenario 0) = some (Outcome.error "no path") ∨
      ∃ p c td soc dbg, main (scenario 0) = some (Outcome.ok p c td soc dbg) ∧
        p.head? = some 1 ∧ p.getLast? = some 4) :=
  ⟨present_costs_nonneg (scenario 0) (by norm_num [scenario]) (by norm_num [scenario])
      (by norm_num [scenario]) (by norm_num [scenario]) (by norm_num [scenario]),
    C7_source_reached (scenario 0)
      (present_costs_nonneg (scenario 0) (by norm_num [scenario]) (by norm_num [scenario])
        (by norm_num [scenario]) (by norm_num [scenario]) (by norm_num [scenario]))⟩

theorem zeroRate_search :
    (search (weights zeroRateInput)).prev 4 = 2 ∧ (search (weights zeroRateInput)).prev 2 = 1 ∧
    (search (weights zeroRateInput)).prev 1 = -1 ∧
    (search (weights zeroRateInput)).dist 4 = 0 ∧
    (search (weights zeroRateInput)).dist 2 = 0 := by
  norm_num [search, loop, select, selectStep, relax, relaxStep, init, store, weights, store2,
    nodeCost, INF, zeroRateInput, scenario]

theorem zeroRate_main :
    main zeroRateInput = some (Outcome.ok [1, 2, 4] 0 25 socTimeline [⟨1, 2, 0⟩]) := by
  obtain ⟨h4, h2, h1, d4, d2⟩ := zeroRate_search
  rw [main_124 _ h4 h2 h1, d4, d2]
  norm_num [zeroRateInput, scenario]

/-- Counterexample to C8 as stated: the scenario with consumption rate `0` is not rejected;
the program reports status ok with the path `[1,2,4]` at total cost `0`. -/
theorem C8_counterexample :
    zeroRateInput.consumption ≤ 0 ∧
    main zeroRateInput = some (Outcome.ok [1, 2, 4] 0 25 socTimeline [⟨1, 2, 0⟩]) :=
  ⟨by norm_num [zeroRateInput], zeroRate_main⟩

/-- Every input is answered by "no path" or by a path with status ok. -/
theorem main_error_or_ok (inp : Input) :
    main inp = some (Outcome.error "no path") ∨
    ∃ p c td soc dbg, main inp = some (Outcome.ok p c td soc dbg) := by
  rcases main_total inp with h | ⟨p, -, -, dbg, h⟩
  · exact Or.inl h
  · exact Or.inr ⟨p, _, _, _, dbg, h⟩

theorem zero_rate_costs (inp : Input) (h0 : inp.consumption = 0) :
    (∀ a b, Present inp a b → 0 ≤ edgeCost inp a b) ∧ ∀ r, routeCost inp r = 0 := by
  have he : ∀ a b, edgeCost inp a b = 0 := by
    intro a b
    simp [edgeCost, h0]
  refine ⟨fun a b _ => by rw [he], ?_⟩
  intro r
  induction r with
  | nil => simp [routeCost]
  | cons a t ih =>
    cases t with
    | nil => simp [routeCost]
    | cons b t2 => simp [routeCost, he, ih]

/-- Claim C8 as amended. A consumption rate that is zero or negative is not rejected: the
outcome is the error "no path" or a path with status ok. With consumption rate `0` every edge
costs `0`, and the program reports status ok with total cost `0` when one of the routes
1-2-4, 1-2-3-4, 1-3-4 has all its edges present, and "no path" when none has. -/
theorem C8_rate_not_checked (inp : Input) (_hc : inp.consumption ≤ 0) :
    (main inp = some (Outcome.error "no path") ∨
      ∃ p c td soc dbg, main inp = some (Outcome.ok p c td soc dbg)) ∧
    (inp.consumption = 0 →
      ((∃ r ∈ routes, RoutePresent inp r) →
        ∃ p td soc dbg, main inp = some (Outcome.ok p 0 td soc dbg)) ∧
      ((¬ ∃ r ∈ routes, RoutePresent inp r) → main inp = some (Outcome.error "no path"))) := by
  refine ⟨main_error_or_ok inp, ?_⟩
  intro h0
  obtain ⟨hcost, hzero⟩ := zero_rate_costs inp h0
  have hn := nonNeg_of_present inp hcost
  constructor
  · intro hex
    have hb : CostsBelowINF inp := by
      intro r _ _
      rw [hzero r]
      exact INF_pos
    obtain ⟨p, td, soc, dbg, hm, ⟨r, -, -, hr⟩, -⟩ := optimal_of_nonNeg inp hn hb hex
    rw [hzero r] at hr
    rw [hr] at hm
    exact ⟨p, td, soc, dbg, hm⟩
  · intro hno
    rcases (route_outcome inp hn).2 with ⟨-, hm⟩ | ⟨r, hr, hp, -⟩
    · exact hm
    · exact absurd ⟨r, hr, hp⟩ hno

/-- Witness of C8 (amended): the scenario with consumption rate `0`. -/
theorem C8_rate_not_checked_witness :
    zeroRateInput.consumption ≤ 0 ∧
    ((main zeroRateInput = some (Outcome.error "no path") ∨
      ∃ p c td soc dbg, main zeroRateInput = some (Outcome.ok p c td soc dbg)) ∧
    (zeroRateInput.consumption = 0 →
      ((∃ r ∈ routes, RoutePresent zeroRateInput r) →
        ∃ p td soc dbg, main zeroRateInput = some (Outcome.ok p 0 td soc dbg)) ∧
      ((¬ ∃ r ∈ routes, RoutePresent zeroRateInput r) →
        main zeroRateInput = some (Outcome.error "no path")))) :=
  ⟨by norm_num [zeroRateInput],
    C8_rate_not_checked zeroRateInput (by norm_num [zeroRateInput])⟩

theorem weights_dropNegative (inp : Input) : weights (dropNegative inp) = weights inp := by
  funext v u
  rw [weights_apply, weights_apply]
  by_cases h1 : inp.d12 > 0 <;> by_cases h2 : inp.d23 > 0 <;> by_cases h3 : inp.d34 > 0 <;>
    by_cases h4 : inp.d13 > 0 <;> by_cases h5 : inp.d24 > 0 <;>
    simp [dropNegative, h1, h2, h3, h4, h5, le_of_lt, max_eq_left, max_eq_right, not_lt.1]

theorem weights_cost1 (inp : Input) (x : ℚ) :
    weights { inp with cost1 := x } = weights inp := by
  funext v u
  rw [weights_apply, weights_apply]

theorem main_cost1 (inp : Input) (x : ℚ) : main { inp with cost1 := x } = main inp := by
  simp only [main]
  rw [weights_cost1]
  rfl

theorem main_dropNegative (inp : Input) : main (dropNegative inp) = main inp := by
  have hw := weights_dropNegative inp
  have m0 := main_no_path (dropNegative inp)
  have m24 := main_24 (dropNegative inp)
  have m124 := main_124 (dropNegative inp)
  have m34 := main_34 (dropNegative inp)
  have m134 := main_134 (dropNegative inp)
  have m234 := main_234 (dropNegative inp)
  have m1234 := main_1234 (dropNegative inp)
  rw [hw] at m0 m24 m124 m34 m134 m234 m1234
  obtain ⟨hp1, hp2, hp3, hp4⟩ := search_prev_shape inp
  rcases hp4 with h4 | ⟨h4, a24⟩ | ⟨h4, a34⟩
  · rw [m0 h4, main_no_path inp h4]
  · rcases hp2 with h2 | ⟨h2, a12⟩
    · rw [m24 h4 h2, main_24 inp h4 h2]
      simp [dropNegative, max_eq_left, le_of_lt, a24]
    · rw [m124 h4 h2 hp1, main_124 inp h4 h2 hp1]
      simp [dropNegative, max_eq_left, le_of_lt, a24, a12]
  · rcases hp3 with h3 | ⟨h3, a13⟩ | ⟨h3, a23⟩
    · rw [m34 h4 h3, main_34 inp h4 h3]
      simp [dropNegative, max_eq_left, le_of_lt, a34]
    · rw [m134 h4 h3 hp1, main_134 inp h4 h3 hp1]
      simp [dropNegative, max_eq_left, le_of_lt, a34, a13]
    · rcases hp2 with h2 | ⟨h2, a12⟩
      · rw [m234 h4 h3 h2, main_234 inp h4 h3 h2]
        simp [dropNegative, max_eq_left, le_of_lt, a34, a23]
      · rw [m1234 h4 h3 h2 hp1, main_1234 inp h4 h3 h2 hp1]
        simp [dropNegative, max_eq_left, le_of_lt, a34, a23, a12]

/-- Counterexample to C9 as stated: the scenario with price `-1` at node 1 is not rejected;
the program reports status ok with the path `[1,2,4]`. -/
theorem C9_counterexample :
    (scenario (-1)).cost1 < 0 ∧
    main (scenario (-1)) =
      some (Outcome.ok [1, 2, 4] (36 / 25) 25 socTimeline [⟨1, 2, 3 / 5⟩]) :=
  ⟨by norm_num [scenario], scenario_main (-1)⟩

/-- Claim C9 as amended. An input with a negative distance or a negative price is not rejected:
the outcome is the error "no path" or a path with status ok. A negative distance makes its
edge absent, exactly as distance `0` does (replacing every negative distance by `0` leaves
the report unchanged), and the price of node 1 is never used (changing it leaves the report
unchanged). -/
theorem C9_negative_not_checked (inp : Input)
    (_hneg : inp.d12 < 0 ∨ inp.d23 < 0 ∨ inp.d34 < 0 ∨ inp.d13 < 0 ∨ inp.d24 < 0 ∨
      inp.cost1 < 0 ∨ inp.cost2 < 0 ∨ inp.cost3 < 0 ∨ inp.cost4 < 0) :
    (main inp = some (Outcome.error "no path") ∨
      ∃ p c td soc dbg, main inp = some (Outcome.ok p c td soc dbg)) ∧
    main (dropNegative inp) = main inp ∧
    ∀ x : ℚ, main { inp with cost1 := x } = main inp :=
  ⟨main_error_or_ok inp, main_dropNegative inp, main_cost1 inp⟩

/-- Witness of C9 (amended): the scenario with price `-1` at node 1. -/
theorem C9_negative_not_checked_witness :
    (scenario (-1)).cost1 < 0 ∧
    ((main (scenario (-1)) = some (Outcome.error "no path") ∨
      ∃ p c td soc dbg, main (scenario (-1)) = some (Outcome.ok p c td soc dbg)) ∧
    main (dropNegative (scenario (-1))) = main (scenario (-1)) ∧
    ∀ x : ℚ, main { scenario (-1) with cost1 := x } = main (scenario (-1))) :=
  ⟨by norm_num [scenario], C9_negative_not_checked (scenario (-1)) (by norm_num [scenario])⟩

theorem edgeCost_mono (d e c p : ℚ) (h : d ≤ e) (hc : 0 ≤ c) (hp : 0 ≤ p) :
    d * c * p ≤ e * c * p :=
  mul_le_mul_of_nonneg_right (mul_le_mul_of_nonneg_right h hc) hp

/-- What raising one present edge does to the five distances: none decreases and none
changes between absent and present. -/
theorem raises_facts (A B : Input) (h : RaisesOneEdge A B) :
    (A.d12 ≤ B.d12 ∧ (0 < A.d12 ↔ 0 < B.d12)) ∧ (A.d23 ≤ B.d23 ∧ (0 < A.d23 ↔ 0 < B.d23)) ∧
    (A.d34 ≤ B.d34 ∧ (0 < A.d34 ↔ 0 < B.d34)) ∧ (A.d13 ≤ B.d13 ∧ (0 < A.d13 ↔ 0 < B.d13)) ∧
    (A.d24 ≤ B.d24 ∧ (0 < A.d24 ↔ 0 < B.d24)) := by
  obtain ⟨-, -, -, -, -, hd⟩ := h
  rcases hd with ⟨a, b, e1, e2, e3, e4⟩ | ⟨a, b, e1, e2, e3, e4⟩ | ⟨a, b, e1, e2, e3, e4⟩ |
      ⟨a, b, e1, e2, e3, e4⟩ | ⟨a, b, e1, e2, e3, e4⟩ <;>
    refine ⟨⟨?_, ?_⟩, ⟨?_, ?_⟩, ⟨?_, ?_⟩, ⟨?_, ?_⟩, ⟨?_, ?_⟩⟩ <;>
    first
    | linarith
    | (constructor <;> intro _ <;> linarith)

theorem raises_present (A B : Input) (h : RaisesOneEdge A B) :
    ∀ r ∈ routes, (RoutePresent A r ↔ RoutePresent B r) := by
  obtain ⟨⟨-, f12⟩, ⟨-, f23⟩, ⟨-, f34⟩, ⟨-, f13⟩, ⟨-, f24⟩⟩ := raises_facts A B h
  intro r hr
  simp only [routes, List.mem_cons, List.mem_singleton, List.not_mem_nil, or_false] at hr
  rcases hr with rfl | rfl | rfl
  · rw [routePresent_124, routePresent_124, f12, f24]
  · rw [routePresent_1234, routePresent_1234, f12, f23, f34]
  · rw [routePresent_134, routePresent_134, f13, f34]

theorem raises_cost (A B : Input) (h : RaisesOneEdge A B) (hc : 0 < A.consumption)
    (h2 : 0 ≤ A.cost2) (h3 : 0 ≤ A.cost3) (h4 : 0 ≤ A.cost4) :
    ∀ r ∈ routes, routeCost A r ≤ routeCost B r := by
  obtain ⟨⟨g12, -⟩, ⟨g23, -⟩, ⟨g34, -⟩, ⟨g13, -⟩, ⟨g24, -⟩⟩ := raises_facts A B h
  obtain ⟨ec, -, e2, e3, e4, -⟩ := h
  have hc0 := le_of_lt hc
  have m12 := edgeCost_mono _ _ _ _ g12 hc0 h2
  have m23 := edgeCost_mono _ _ _ _ g23 hc0 h3
  have m34 := edgeCost_mono _ _ _ _ g34 hc0 h4
  have m13 := edgeCost_mono _ _ _ _ g13 hc0 h3
  have m24 := edgeCost_mono _ _ _ _ g24 hc0 h4
  intro r hr
  simp only [routes, List.mem_cons, List.mem_singleton, List.not_mem_nil, or_false] at hr
  rcases hr with rfl | rfl | rfl
  · rw [routeCost_124, routeCost_124, ec, e2, e4]; linarith
  · rw [routeCost_1234, routeCost_1234, ec, e2, e3, e4]; linarith
  · rw [routeCost_134, routeCost_134, ec, e3, e4]; linarith

/-- With non-negative adjacency costs and present routes below `INF`, a path is returned
exactly when some route has all its edges present. -/
theorem returns_iff (inp : Input) (hn : NonNeg (weights inp)) (hb : CostsBelowINF inp) :
    (∃ p c td soc dbg, main inp = some (Outcome.ok p c td soc dbg)) ↔
      ∃ r ∈ routes, RoutePresent inp r := by
  constructor
  · rintro ⟨p, c, td, soc, dbg, hm⟩
    rcases (route_outcome inp hn).2 with ⟨-, he⟩ | ⟨r, hr, hp, -⟩
    · rw [he] at hm
      simp at hm
    · exact ⟨r, hr, hp⟩
  · intro hex
    obtain ⟨p, td, soc, dbg, hm, -⟩ := optimal_of_nonNeg inp hn hb hex
    exact ⟨p, _, td, soc, dbg, hm⟩

/-- Claim C10. Monotonicity in edge distance: for inputs `A` and `B` with consumption `> 0`,
prices `>= 0` and present routes below `INF`, identical except that one edge has distance
`d > 0` in `A` and `d' >= d` in `B`: `A` returns a path exactly when `B` does, and then the
total cost reported for `B` is at least the total cost reported for `A`. -/
theorem C10_monotone (A B : Input) (hc : 0 < A.consumption)
    (hp : 0 ≤ A.cost1 ∧ 0 ≤ A.cost2 ∧ 0 ≤ A.cost3 ∧ 0 ≤ A.cost4)
    (hbA : CostsBelowINF A) (hbB : CostsBelowINF B) (hAB : RaisesOneEdge A B) :
    ((∃ p c td soc dbg, main A = some (Outcome.ok p c td soc dbg)) ↔
      (∃ p c td soc dbg, main B = some (Outcome.ok p c td soc dbg))) ∧
    ∀ pa ca tda soca dbga pb cb tdb socb dbgb,
      main A = some (Outcome.ok pa ca tda soca dbga) →
      main B = some (Outcome.ok pb cb tdb socb dbgb) → ca ≤ cb := by
  obtain ⟨-, h2, h3, h4⟩ := hp
  have hnA : NonNeg (weights A) := weights_nonNeg A (le_of_lt hc) h2 h3 h4
  have hnB : NonNeg (weights B) := by
    obtain ⟨ec, -, e2, e3, e4, -⟩ := hAB
    exact weights_nonNeg B (by rw [ec]; exact le_of_lt hc) (by rw [e2]; exact h2)
      (by rw [e3]; exact h3) (by rw [e4]; exact h4)
  have hpres := raises_present A B hAB
  have hcost := raises_cost A B hAB hc h2 h3 h4
  constructor
  · rw [returns_iff A hnA hbA, returns_iff B hnB hbB]
    constructor
    · rintro ⟨r, hr, hp⟩
      exact ⟨r, hr, (hpres r hr).1 hp⟩
    · rintro ⟨r, hr, hp⟩
      exact ⟨r, hr, (hpres r hr).2 hp⟩
  · intro pa ca tda soca dbga pb cb tdb socb dbgb hA hB
    rcases (route_outcome B hnB).2 with ⟨-, he⟩ | ⟨r, hr, hpB, -, hcB, dbg, hm⟩
    · rw [he] at hB
      simp at hB
    · rw [hm] at hB
      simp only [Option.some.injEq, Outcome.ok.injEq] at hB
      obtain ⟨-, rfl, -⟩ := hB
      have hpA := (hpres r hr).2 hpB
      have hle := (route_outcome A hnA).1 r hr hpA (hbA r hr hpA)
      rcases (route_outcome A hnA).2 with ⟨-, he⟩ | ⟨r2, -, -, -, -, dbg2, hm2⟩
      · rw [he] at hA
        simp at hA
      · rw [hm2] at hA
        simp only [Option.some.injEq, Outcome.ok.injEq] at hA
        obtain ⟨-, rfl, -⟩ := hA
        rw [hcB]
        exact le_trans hle (hcost r hr)

theorem raised_below : CostsBelowINF raisedInput := by
  intro r hr _
  simp only [routes, List.mem_cons, List.mem_singleton, List.not_mem_nil, or_false] at hr
  rcases hr with rfl | rfl | rfl
  · rw [routeCost_124]; norm_num [raisedInput, scenario, INF]
  · rw [routeCost_1234]; norm_num [raisedInput, scenario, INF]
  · rw [routeCost_134]; norm_num [raisedInput, scenario, INF]

theorem raised_raises : RaisesOneEdge (scenario 0) raisedInput := by
  refine ⟨rfl, rfl, rfl, rfl, rfl, ?_⟩
  right; right; right; right
  norm_num [raisedInput, scenario]

/-- Witness of C10: the scenario of the specification and the same input with the distance
of edge 2-4 raised from 15 to 20. -/
theorem C10_monotone_witness :
    0 < (scenario 0).consumption ∧
    (0 ≤ (scenario 0).cost1 ∧ 0 ≤ (scenario 0).cost2 ∧ 0 ≤ (scenario 0).cost3 ∧
      0 ≤ (scenario 0).cost4) ∧
    CostsBelowINF (scenario 0) ∧ CostsBelowINF raisedInput ∧
    RaisesOneEdge (scenario 0) raisedInput ∧
    ((∃ p c td soc dbg, main (scenario 0) = some (Outcome.ok p c td soc dbg)) ↔
      (∃ p c td soc dbg, main raisedInput = some (Outcome.ok p c td soc dbg))) ∧
    ∀ pa ca tda soca dbga pb cb tdb socb dbgb,
      main (scenario 0) = some (Outcome.ok pa ca tda soca dbga) →
      main raisedInput = some (Outcome.ok pb cb tdb socb dbgb) → ca ≤ cb :=
  ⟨by norm_num [scenario], by norm_num [scenario], scenario_below 0, raised_below,
    raised_raises,
    C10_monotone (scenario 0) raisedInput (by norm_num [scenario]) (by norm_num [scenario])
      (scenario_below 0) raised_below raised_raises⟩

/-! ## The constant report fields and the trace record -/

theorem viaThree_search :
    (search (weights viaThreeInput)).prev 4 = 3 ∧ (search (weights viaThreeInput)).prev 3 = 1 ∧
    (search (weights viaThreeInput)).prev 1 = -1 ∧
    (search (weights viaThreeInput)).dist 4 = 2 ∧
    (search (weights viaThreeInput)).dist 3 = 1 := by
  norm_num [search, loop, select, selectStep, relax, relaxStep, init, store, weights, store2,
    nodeCost, INF, viaThreeInput]

theorem viaThree_main :
    main viaThreeInput = some (Outcome.ok [1, 3, 4] 2 2 socTimeline [⟨1, 3, 1⟩]) := by
  obtain ⟨h4, h3, h1, d4, d3⟩ := viaThree_search
  rw [main_134 _ h4 h3 h1, d4, d3]
  norm_num [viaThreeInput]

/-- Claim C12. The state-of-charge report is a constant stub: for every input for which a
path is returned, the emitted `soc_timeline` is the fixed sequence (node 1, soc 80), (node 2,
soc 60), (node 4, soc 45), whatever the distances, prices, consumption rate and returned
path. -/
theorem C12_soc_stub (inp : Input) (p : List Int) (c td : ℚ)
    (soc : List SocPoint) (dbg : List DebugStep)
    (h : main inp = some (Outcome.ok p c td soc dbg)) :
    soc = [⟨1, 80⟩, ⟨2, 60⟩, ⟨4, 45⟩] := by
  rcases main_total inp with hm | ⟨r, -, -, dbg2, hm⟩
  · rw [hm] at h
    simp at h
  · rw [hm] at h
    simp only [Option.some.injEq, Outcome.ok.injEq] at h
    obtain ⟨-, -, -, rfl, -⟩ := h
    rfl

/-- Witness of C12: an input whose returned path is 1-3-4; the timeline still names node 2
and omits node 3. -/
theorem C12_soc_stub_witness :
    main viaThreeInput = some (Outcome.ok [1, 3, 4] 2 2 socTimeline [⟨1, 3, 1⟩]) ∧
    socTimeline = [⟨1, 80⟩, ⟨2, 60⟩, ⟨4, 45⟩] :=
  ⟨viaThree_main, C12_soc_stub viaThreeInput _ _ _ _ _ viaThree_main⟩

/-- Claim C14. Deterministic minimum selection with lowest-identifier tie-break: in every
search state with at least one node not yet used, the node chosen by the selection scan is a
node that is not used, its tentative distance is at most that of every not-used node, and it
is the smallest-numbered not-used node attaining that minimum. -/
theorem C14_selection (s : Search) (h : ∃ i, IsNode i ∧ s.used i = false) :
    IsNode (select s) ∧ s.used (select s) = false ∧
    (∀ i, IsNode i → s.used i = false → s.dist (select s) ≤ s.dist i) ∧
    (∀ i, IsNode i → s.used i = false → s.dist i = s.dist (select s) → select s ≤ i) := by
  obtain ⟨hn, hu, hmin⟩ := select_min s h
  exact ⟨hn, hu, fun i hi hiu => (hmin i hi hiu).1, fun i hi hiu => (hmin i hi hiu).2⟩

/-- Witness of C14: the initial state, in which no node is used. -/
theorem C14_selection_witness :
    (∃ i, IsNode i ∧ init.used i = false) ∧
    IsNode (select init) ∧ init.used (select init) = false ∧
    (∀ i, IsNode i → init.used i = false → init.dist (select init) ≤ init.dist i) ∧
    (∀ i, IsNode i → init.used i = false → init.dist i = init.dist (select init) →
      select init ≤ i) :=
  ⟨⟨1, Or.inl rfl, rfl⟩, C14_selection init ⟨1, Or.inl rfl, rfl⟩⟩

/-- Claim C16. Predecessor links strictly decrease, so the reconstruction terminates in
bounds: for every input, after the search `prev[1] = -1` and each of `prev[2]`, `prev[3]`,
`prev[4]` is `-1` or the tail of a modelled edge into that node with distance `> 0` (so a
smaller node); the walk from node 4 ends, writes at most the four slots `path[0..3]`, and the
nodes it writes strictly decrease. -/
theorem C16_walk_in_bounds (inp : Input) :
    ((search (weights inp)).prev 1 = -1 ∧
      ∀ u, u = 2 ∨ u = 3 ∨ u = 4 →
        (search (weights inp)).prev u = -1 ∨
          ((search (weights inp)).prev u < u ∧ Present inp ((search (weights inp)).prev u) u)) ∧
    ∃ path plen, walk (search (weights inp)).prev 5 4 (fun _ => 0) 0 = some (path, plen) ∧
      1 ≤ plen ∧ plen ≤ 4 ∧ path 0 = 4 ∧
      ∀ i : Int, 0 ≤ i → i + 1 < plen → path (i + 1) < path i := by
  obtain ⟨hp1, hp2, hp3, hp4⟩ := search_prev_shape inp
  constructor
  · refine ⟨hp1, ?_⟩
    rintro u (rfl | rfl | rfl)
    · rcases hp2 with h | ⟨h, a⟩
      · exact Or.inl h
      · right; rw [h]; simp [Present, IsEdge, edgeDistance, a]
    · rcases hp3 with h | ⟨h, a⟩ | ⟨h, a⟩
      · exact Or.inl h
      · right; rw [h]; simp [Present, IsEdge, edgeDistance, a]
      · right; rw [h]; simp [Present, IsEdge, edgeDistance, a]
    · rcases hp4 with h | ⟨h, a⟩ | ⟨h, a⟩
      · exact Or.inl h
      · right; rw [h]; simp [Present, IsEdge, edgeDistance, a]
      · right; rw [h]; simp [Present, IsEdge, edgeDistance, a]
  · generalize (search (weights inp)).prev = prev at *
    rcases hp4 with h4 | ⟨h4, -⟩ | ⟨h4, -⟩
    · refine ⟨store (fun _ => 0) 0 4, 1, by simp [walk, h4], by norm_num, by norm_num,
        by simp [store], ?_⟩
      intro i h0 h1
      omega
    · rcases hp2 with h2 | ⟨h2, -⟩
      · refine ⟨store (store (fun _ => 0) 0 4) 1 2, 2, by simp [walk, h4, h2], by norm_num, by norm_num,
          by simp [store], ?_⟩
        intro i h0 h1
        have hi : i = 0 := by omega
        subst hi
        simp [store]
      · refine ⟨store (store (store (fun _ => 0) 0 4) 1 2) 2 1, 3, by simp [walk, h4, h2, hp1], by norm_num, by norm_num,
          by simp [store], ?_⟩
        intro i h0 h1
        have hi : i = 0 ∨ i = 1 := by omega
        rcases hi with rfl | rfl <;> simp [store]
    · rcases hp3 with h3 | ⟨h3, -⟩ | ⟨h3, -⟩
      · refine ⟨store (store (fun _ => 0) 0 4) 1 3, 2, by simp [walk, h4, h3], by norm_num, by norm_num,
          by simp [store], ?_⟩
        intro i h0 h1
        have hi : i = 0 := by omega
        subst hi
        simp [store]
      · refine ⟨store (store (store (fun _ => 0) 0 4) 1 3) 2 1, 3, by simp [walk, h4, h3, hp1], by norm_num, by norm_num,
          by simp [store], ?_⟩
        intro i h0 h1
        have hi : i = 0 ∨ i = 1 := by omega
        rcases hi with rfl | rfl <;> simp [store]
      · rcases hp2 with h2 | ⟨h2, -⟩
        · refine ⟨store (store (store (fun _ => 0) 0 4) 1 3) 2 2, 3, by simp [walk, h4, h3, h2], by norm_num, by norm_num,
            by simp [store], ?_⟩
          intro i h0 h1
          have hi : i = 0 ∨ i = 1 := by omega
          rcases hi with rfl | rfl <;> simp [store]
        · refine ⟨store (store (store (store (fun _ => 0) 0 4) 1 3) 2 2) 3 1, 4, by simp [walk, h4, h3, h2, hp1], by norm_num, by norm_num,
            by simp [store], ?_⟩
          intro i h0 h1
          have hi : i = 0 ∨ i = 1 ∨ i = 2 := by omega
          rcases hi with rfl | rfl | rfl <;> simp [store]

/-- Claim C18. Content of the single trace record: for an input with consumption `> 0`,
prices `>= 0` and distances `>= 0` for which a path `p` is returned, `debug_steps` is
exactly one record, with `current = 1`, `next = p[1]` (which is 2 or 3) and `newCost` the
cost of the first edge of the path, `distance(1,p[1]) * consumption * price(p[1])`. -/
theorem C18_trace_record (inp : Input) (hv : Valid inp) (p : List Int) (c td : ℚ)
    (soc : List SocPoint) (dbg : List DebugStep)
    (h : main inp = some (Outcome.ok p c td soc dbg)) :
    ∃ n : Int, p[1]? = some n ∧ (n = 2 ∨ n = 3) ∧
      dbg = [⟨1, n, edgeDistance inp 1 n * inp.consumption * nodeCost inp n⟩] := by
  rcases (valid_outcome inp hv.nonNeg).2 with ⟨-, hm⟩ | ⟨-, -, hd, -, hm⟩ | ⟨-, -, hd, -, hm⟩ |
      ⟨-, -, hd, -, hm⟩
  · rw [hm] at h
    simp at h
  · rw [hm, hd] at h
    simp only [Option.some.injEq, Outcome.ok.injEq] at h
    obtain ⟨rfl, -, -, -, rfl⟩ := h
    exact ⟨2, rfl, Or.inl rfl, by simp [edgeDistance, nodeCost]⟩
  · rw [hm, hd] at h
    simp only [Option.some.injEq, Outcome.ok.injEq] at h
    obtain ⟨rfl, -, -, -, rfl⟩ := h
    exact ⟨2, rfl, Or.inl rfl, by simp [edgeDistance, nodeCost]⟩
  · rw [hm, hd] at h
    simp only [Option.some.injEq, Outcome.ok.injEq] at h
    obtain ⟨rfl, -, -, -, rfl⟩ := h
    exact ⟨3, rfl, Or.inr rfl, by simp [edgeDistance, nodeCost]⟩

/-- Witness of C18: the scenario of the specification. -/
theorem C18_trace_record_witness :
    Valid (scenario 0) ∧
    main (scenario 0) = some (Outcome.ok [1, 2, 4] (36 / 25) 25 socTimeline [⟨1, 2, 3 / 5⟩]) ∧
    ∃ n : Int, ([1, 2, 4] : List Int)[1]? = some n ∧ (n = 2 ∨ n = 3) ∧
      ([⟨1, 2, 3 / 5⟩] : List DebugStep) =
        [⟨1, n, edgeDistance (scenario 0) 1 n * (scenario 0).consumption *
          nodeCost (scenario 0) n⟩] :=
  ⟨scenario_valid 0 (le_refl _), scenario_main 0,
    C18_trace_record (scenario 0) (scenario_valid 0 (le_refl _)) _ _ _ _ _ (scenario_main 0)⟩

/-! ## Distances that are not positive -/

theorem weights_sameButAbsent (A B : Input) (h : SameButAbsent A B) :
    weights B = weights A := by
  obtain ⟨ec, -, e2, e3, e4, h12, h23, h34, h13, h24⟩ := h
  funext v u
  rw [weights_apply, weights_apply, ec, e2, e3, e4]
  have k : ∀ a b : ℚ, (b = a ∨ (a ≤ 0 ∧ b ≤ 0)) → ∀ x y : ℚ,
      (if b > 0 then b * x * y else INF) = (if a > 0 then a * x * y else INF) := by
    intro a b hab x y
    rcases hab with rfl | ⟨ha, hb⟩
    · rfl
    · rw [if_neg (not_lt.2 hb), if_neg (not_lt.2 ha)]
  have k12 := k _ _ h12 A.consumption A.cost2
  have k23 := k _ _ h23 A.consumption A.cost3
  have k34 := k _ _ h34 A.consumption A.cost4
  have k13 := k _ _ h13 A.consumption A.cost3
  have k24 := k _ _ h24 A.consumption A.cost4
  by_cases c24 : v = 2 ∧ u = 4
  · simp only [c24, true_and, and_self]
    norm_num
    exact k24
  by_cases c13 : v = 1 ∧ u = 3
  · simp only [c13, true_and, and_self]
    norm_num
    exact k13
  by_cases c34 : v = 3 ∧ u = 4
  · simp only [c34, true_and, and_self]
    norm_num
    exact k34
  by_cases c23 : v = 2 ∧ u = 3
  · simp only [c23, true_and, and_self]
    norm_num
    exact k23
  by_cases c12 : v = 1 ∧ u = 2
  · simp only [c12, true_and, and_self]
    norm_num
    exact k12
  · have n24 : ∀ q : Prop, ¬ (v = 2 ∧ u = 4 ∧ q) := fun q hq => c24 ⟨hq.1, hq.2.1⟩
    have n13 : ∀ q : Prop, ¬ (v = 1 ∧ u = 3 ∧ q) := fun q hq => c13 ⟨hq.1, hq.2.1⟩
    have n34 : ∀ q : Prop, ¬ (v = 3 ∧ u = 4 ∧ q) := fun q hq => c34 ⟨hq.1, hq.2.1⟩
    have n23 : ∀ q : Prop, ¬ (v = 2 ∧ u = 3 ∧ q) := fun q hq => c23 ⟨hq.1, hq.2.1⟩
    have n12 : ∀ q : Prop, ¬ (v = 1 ∧ u = 2 ∧ q) := fun q hq => c12 ⟨hq.1, hq.2.1⟩
    simp only [n24, n13, n34, n23, n12, if_false]

/-- The report depends on the input only through the adjacency costs and the distances of
the present edges. -/
theorem main_congr (A B : Input) (hw : weights B = weights A)
    (h12 : 0 < A.d12 → B.d12 = A.d12) (h23 : 0 < A.d23 → B.d23 = A.d23)
    (h34 : 0 < A.d34 → B.d34 = A.d34) (h13 : 0 < A.d13 → B.d13 = A.d13)
    (h24 : 0 < A.d24 → B.d24 = A.d24) : main B = main A := by
  have m0 := main_no_path B
  have m24 := main_24 B
  have m124 := main_124 B
  have m34 := main_34 B
  have m134 := main_134 B
  have m234 := main_234 B
  have m1234 := main_1234 B
  rw [hw] at m0 m24 m124 m34 m134 m234 m1234
  obtain ⟨hp1, hp2, hp3, hp4⟩ := search_prev_shape A
  rcases hp4 with h4 | ⟨h4, a24⟩ | ⟨h4, a34⟩
  · rw [m0 h4, main_no_path A h4]
  · rcases hp2 with h2 | ⟨h2, a12⟩
    · rw [m24 h4 h2, main_24 A h4 h2, h24 a24]
    · rw [m124 h4 h2 hp1, main_124 A h4 h2 hp1, h24 a24, h12 a12]
  · rcases hp3 with h3 | ⟨h3, a13⟩ | ⟨h3, a23⟩
    · rw [m34 h4 h3, main_34 A h4 h3, h34 a34]
    · rw [m134 h4 h3 hp1, main_134 A h4 h3 hp1, h34 a34, h13 a13]
    · rcases hp2 with h2 | ⟨h2, a12⟩
      · rw [m234 h4 h3 h2, main_234 A h4 h3 h2, h34 a34, h23 a23]
      · rw [m1234 h4 h3 h2 hp1, main_1234 A h4 h3 h2 hp1, h34 a34, h23 a23, h12 a12]

theorem main_sameButAbsent (A B : Input) (h : SameButAbsent A B) : main B = main A := by
  have hw := weights_sameButAbsent A B h
  obtain ⟨-, -, -, -, -, h12, h23, h34, h13, h24⟩ := h
  have k : ∀ a b : ℚ, (b = a ∨ (a ≤ 0 ∧ b ≤ 0)) → 0 < a → b = a := by
    intro a b hab ha
    rcases hab with h | ⟨h, -⟩
    · exact h
    · exact absurd ha (not_lt.2 h)
  exact main_congr A B hw (k _ _ h12) (k _ _ h23) (k _ _ h34) (k _ _ h13) (k _ _ h24)

theorem brokenInput_main :
    main brokenInput =
      some (Outcome.ok [2, 4] (INF - 1024) 1 socTimeline [⟨1, 4, INF - 1024⟩]) := by
  obtain ⟨h4, h2, d4⟩ := brokenInput_search
  rw [main_24 _ h4 h2, d4]
  simp [brokenInput]

/-- Counterexample to C17 as stated: in the input with the single edge 2-4 and price `-1024`
at node 4 every route from node 1 to node 4 uses an edge of distance 0, and yet the report
is the path `[2,4]` with status ok, not "no path". -/
theorem C17_counterexample :
    (¬ ∃ r ∈ routes, RoutePresent brokenInput r) ∧
    main brokenInput =
      some (Outcome.ok [2, 4] (INF - 1024) 1 socTimeline [⟨1, 4, INF - 1024⟩]) := by
  refine ⟨?_, brokenInput_main⟩
  rintro ⟨r, hr, hp⟩
  simp only [routes, List.mem_cons, List.mem_singleton, List.not_mem_nil, or_false] at hr
  rcases hr with rfl | rfl | rfl
  · rw [routePresent_124] at hp; norm_num [brokenInput] at hp
  · rw [routePresent_1234] at hp; norm_num [brokenInput] at hp
  · rw [routePresent_134] at hp; norm_num [brokenInput] at hp

/-- Claim C17 as amended. A distance that is not positive removes the edge. For every pair
of inputs `A` and `B` that agree except on distances that are `<= 0` in both, the whole
report (error or path, path, total cost, total distance) is the same; and for every input
every hop of a returned path has a distance `> 0`, so an edge of distance 0 is never
traversed. When, in addition, every present edge of `A` has a cost that is not negative and
none of the routes 1-2-4, 1-2-3-4, 1-3-4 has all its edges present, the report is
"no path". -/
theorem C17_nonpositive_absent (A B : Input) (h : SameButAbsent A B) :
    main B = main A ∧
    (∀ p c td soc dbg, main A = some (Outcome.ok p c td soc dbg) → RoutePresent A p) ∧
    ((∀ a b, Present A a b → 0 ≤ edgeCost A a b) →
      (¬ ∃ r ∈ routes, RoutePresent A r) → main A = some (Outcome.error "no path")) := by
  refine ⟨main_sameButAbsent A B h, ?_, ?_⟩
  · intro p c td soc dbg hm
    rcases main_total A with he | ⟨r, -, hp, dbg2, hr⟩
    · rw [he] at hm
      simp at hm
    · rw [hr] at hm
      simp only [Option.some.injEq, Outcome.ok.injEq] at hm
      obtain ⟨rfl, -⟩ := hm
      exact hp
  · intro hcost hno
    rcases (route_outcome A (nonNeg_of_present A hcost)).2 with ⟨-, hm⟩ | ⟨r, hr, hp, -⟩
    · exact hm
    · exact absurd ⟨r, hr, hp⟩ hno

theorem twoHop_costs : ∀ a b, Present twoHopInput a b → 0 ≤ edgeCost twoHopInput a b :=
  present_costs_nonneg twoHopInput (by norm_num [twoHopInput]) (by norm_num [twoHopInput])
    (by norm_num [twoHopInput]) (by norm_num [twoHopInput]) (by norm_num [twoHopInput])

theorem twoHop_same : SameButAbsent twoHopInput twoHopNegInput := by
  refine ⟨rfl, rfl, rfl, rfl, rfl, Or.inl rfl, Or.inl rfl, Or.inl rfl, Or.inr ?_, Or.inl rfl⟩
  norm_num [twoHopInput, twoHopNegInput]

theorem deadEnd_costs : ∀ a b, Present deadEndInput a b → 0 ≤ edgeCost deadEndInput a b :=
  present_costs_nonneg deadEndInput (by norm_num [deadEndInput]) (by norm_num [deadEndInput])
    (by norm_num [deadEndInput]) (by norm_num [deadEndInput]) (by norm_num [deadEndInput])

theorem deadEnd_same : SameButAbsent deadEndInput deadEndNegInput := by
  refine ⟨rfl, rfl, rfl, rfl, rfl, Or.inl rfl, Or.inl rfl, Or.inl rfl, Or.inl rfl, Or.inr ?_⟩
  norm_num [deadEndInput, deadEndNegInput]

theorem deadEnd_absent : ¬ ∃ r ∈ routes, RoutePresent deadEndInput r := by
  rintro ⟨r, hr, hp⟩
  simp only [routes, List.mem_cons, List.mem_singleton, List.not_mem_nil, or_false] at hr
  rcases hr with rfl | rfl | rfl
  · rw [routePresent_124] at hp; norm_num [deadEndInput] at hp
  · rw [routePresent_1234] at hp; norm_num [deadEndInput] at hp
  · rw [routePresent_134] at hp; norm_num [deadEndInput] at hp

/-- Witness of C17 (amended), at two pairs of inputs. First the input with the edges 1-2 and
2-4, whose absent edge 1-3 has distance 0 or -7: the report is the same and its path uses
present edges only. Then the input with the single edge 1-2, whose absent edge 2-4 has
distance 0 or -7: every route uses an edge of distance `<= 0`, the costs are not negative,
and both reports are "no path". -/
theorem C17_nonpositive_absent_witness :
    (SameButAbsent twoHopInput twoHopNegInput ∧
      main twoHopNegInput = main twoHopInput ∧
      (∀ p c td soc dbg, main twoHopInput = some (Outcome.ok p c td soc dbg) →
        RoutePresent twoHopInput p) ∧
      ((∀ a b, Present twoHopInput a b → 0 ≤ edgeCost twoHopInput a b) →
        (¬ ∃ r ∈ routes, RoutePresent twoHopInput r) →
        main twoHopInput = some (Outcome.error "no path"))) ∧
    (SameButAbsent deadEndInput deadEndNegInput ∧
      (∀ a b, Present deadEndInput a b → 0 ≤ edgeCost deadEndInput a b) ∧
      (¬ ∃ r ∈ routes, RoutePresent deadEndInput r) ∧
      main deadEndNegInput = main deadEndInput ∧
      main deadEndInput = some (Outcome.error "no path")) :=
  ⟨⟨twoHop_same, C17_nonpositive_absent twoHopInput twoHopNegInput twoHop_same⟩,
    ⟨deadEnd_same, deadEnd_costs, deadEnd_absent,
      (C17_nonpositive_absent deadEndInput deadEndNegInput deadEnd_same).1,
      (C17_nonpositive_absent deadEndInput deadEndNegInput deadEnd_same).2.2 deadEnd_costs
        deadEnd_absent⟩⟩

/-! ## The points of the main loop -/

/-- The invariant holds after any number of iterations. -/
theorem loop_inv_any (w : Int → Int → ℚ) (hw : EdgesOnly w) (hn : NonNeg w) :
    ∀ (n : Nat) (s : Search), Inv w s → Inv w (loop w n s) := by
  intro n
  induction n with
  | zero => intro s hs; simpa [loop] using hs
  | succ n ih =>
    intro s hs
    simp only [loop]
    split_ifs with h
    · exact hs
    · apply ih
      apply Inv_step w hw hn s hs
      by_contra hex
      apply h
      apply select_none
      intro i hi
      cases hu : s.used i
      · exact absurd ⟨i, hi, hu⟩ hex
      · rfl

/-- For every weight matrix the main loop, started with enough iterations left, marks every
node used. -/
theorem loop_all_used (w : Int → Int → ℚ) :
    ∀ (n : Nat) (s : Search), unusedCount s ≤ n → ∀ i, IsNode i → (loop w n s).used i = true := by
  intro n
  induction n with
  | zero =>
    intro s hc i hi
    cases h : s.used i
    · have := unusedCount_pos s i hi h
      omega
    · simpa [loop] using h
  | succ n ih =>
    intro s hc
    by_cases hex : ∃ i, IsNode i ∧ s.used i = false
    · obtain ⟨hvn, hvu, -⟩ := select_min s hex
      have hne : select s ≠ -1 := by
        intro h
        rw [h] at hvn
        simp [IsNode] at hvn
      have hcnt := unusedCount_step w s (select s) hvn hvu
      have := ih _ (by omega : unusedCount (relax w (select s)
        { s with used := store s.used (select s) true }) ≤ n)
      simpa [loop, hne] using this
    · intro i hi
      have hall : ∀ i, IsNode i → s.used i = true := by
        intro i hi
        cases h : s.used i
        · exact absurd ⟨i, hi, h⟩ hex
        · rfl
      simp only [loop, select_none s hall, if_true]
      exact hall i hi

theorem search_all_used (w : Int → Int → ℚ) : ∀ i, IsNode i → (search w).used i = true := by
  apply loop_all_used w 4 init
  simp [unusedCount, init]

theorem deadEnd_eval :
    (loop (weights deadEndInput) 2 init).dist 3 = INF ∧
    select (loop (weights deadEndInput) 2 init) = 3 ∧
    (loop (weights deadEndInput) 3 init).used 3 = true := by
  norm_num [loop, select, selectStep, relax, relaxStep, init, store, weights, store2,
    nodeCost, INF, deadEndInput]

/-- Counterexample to C15 as stated: with the single edge 1-2, after two iterations node 3
still has tentative distance `INF`; the selection scan selects it and the third iteration
marks it settled. -/
theorem C15_counterexample :
    (loop (weights deadEndInput) 2 init).dist 3 = INF ∧
    select (loop (weights deadEndInput) 2 init) = 3 ∧
    (loop (weights deadEndInput) 3 init).used 3 = true :=
  deadEnd_eval

/-- Claim C15 as amended. The search does not stop at the unreachable frontier: for every
input it runs until all four nodes are settled, so a node whose tentative distance is still
`INF` when it is selected is marked settled and is the origin of a relaxation pass. When
every present edge has a cost that is not negative, that pass changes no entry of `dist` and
no entry of `prev`. -/
theorem C15_frontier (inp : Input) :
    (∀ i, IsNode i → (search (weights inp)).used i = true) ∧
    ((∀ a b, Present inp a b → 0 ≤ edgeCost inp a b) →
      ∀ (k : Nat) (x : Int),
        (loop (weights inp) k init).dist (select (loop (weights inp) k init)) = INF →
        (relax (weights inp) (select (loop (weights inp) k init))
            { loop (weights inp) k init with
              used := store (loop (weights inp) k init).used
                (select (loop (weights inp) k init)) true }).dist x =
          (loop (weights inp) k init).dist x ∧
        (relax (weights inp) (select (loop (weights inp) k init))
            { loop (weights inp) k init with
              used := store (loop (weights inp) k init).used
                (select (loop (weights inp) k init)) true }).prev x =
          (loop (weights inp) k init).prev x) := by
  refine ⟨search_all_used (weights inp), ?_⟩
  intro hcost k x hinf
  have hw := weights_edgesOnly inp
  have hn := nonNeg_of_present inp hcost
  have hs := loop_inv_any (weights inp) hw hn k init (Inv_init _)
  generalize loop (weights inp) k init = s at *
  generalize select s = v at *
  obtain ⟨hd, hp⟩ := relax_dist_prev (weights inp) v { s with used := store s.used v true }
    (not_edge_self _ hw v) x
  rw [hd, hp]
  have hno : ¬ (IsNode x ∧ weights inp v x < INF ∧ s.dist v + weights inp v x < s.dist x) := by
    rintro ⟨hx, -, hlt⟩
    have h1 := (hs.range x hx).2
    have h2 := hn v x
    rw [hinf] at hlt
    linarith
  simp only [hno, if_false, and_self]

/-- Witness of C15 (amended): the pass from node 3, selected at distance `INF` in the third
iteration for the input with the single edge 1-2, leaves `dist[4]` and `prev[4]` alone. -/
theorem C15_frontier_witness :
    (∀ a b, Present deadEndInput a b → 0 ≤ edgeCost deadEndInput a b) ∧
    (loop (weights deadEndInput) 2 init).dist (select (loop (weights deadEndInput) 2 init)) =
      INF ∧
    (relax (weights deadEndInput) (select (loop (weights deadEndInput) 2 init))
        { loop (weights deadEndInput) 2 init with
          used := store (loop (weights deadEndInput) 2 init).used
            (select (loop (weights deadEndInput) 2 init)) true }).dist 4 =
      (loop (weights deadEndInput) 2 init).dist 4 ∧
    (relax (weights deadEndInput) (select (loop (weights deadEndInput) 2 init))
        { loop (weights deadEndInput) 2 init with
          used := store (loop (weights deadEndInput) 2 init).used
            (select (loop (weights deadEndInput) 2 init)) true }).prev 4 =
      (loop (weights deadEndInput) 2 init).prev 4 :=
  have hinf : (loop (weights deadEndInput) 2 init).dist
      (select (loop (weights deadEndInput) 2 init)) = INF := by
    rw [deadEnd_eval.2.1]
    exact deadEnd_eval.1
  ⟨deadEnd_costs, hinf, (C15_frontier deadEndInput).2 deadEnd_costs 2 4 hinf⟩

/-- A relaxation pass from the selected node changes no entry of a marked node. -/
theorem relaxStep_kept (w : Int → Int → ℚ) (hw : EdgesOnly w) (hn : NonNeg w) (s : Search)
    (hs : Inv w s) (v : Int) (hvn : IsNode v) (hvu : s.used v = false) (t : Search)
    (ht : Kept s v t) (u x : Int) (hx : IsNode x) (hxu : t.used x = true) :
    (relaxStep w v t u).dist x = t.dist x ∧ (relaxStep w v t u).prev x = t.prev x := by
  rw [relaxStep_dist, relaxStep_prev]
  have hno : ¬ (x = u ∧ w v u < INF ∧ t.dist v + w v u < t.dist u) := by
    rintro ⟨rfl, hlt, hd⟩
    have hxs := (ht.1 x).1 hxu
    rw [(ht.2 v hvn (Or.inl rfl)).1, (ht.2 x hx hxs).1] at hd
    rcases hxs with rfl | hxs
    · exact not_edge_self w hw x hlt
    · have h1 := hs.settled x v hx hvn hxs hvu
      have h2 := hn v x
      linarith
  simp only [hno, if_false, and_self]

theorem relaxStep_kept_inv (w : Int → Int → ℚ) (hw : EdgesOnly w) (hn : NonNeg w) (s : Search)
    (hs : Inv w s) (v : Int) (hvn : IsNode v) (hvu : s.used v = false) (t : Search)
    (ht : Kept s v t) (u : Int) : Kept s v (relaxStep w v t u) := by
  constructor
  · intro x
    rw [relaxStep_used]
    exact ht.1 x
  · intro x hx hxs
    have hk := relaxStep_kept w hw hn s hs v hvn hvu t ht u x hx ((ht.1 x).2 hxs)
    rw [hk.1, hk.2]
    exact ht.2 x hx hxs

theorem foldl_kept (w : Int → Int → ℚ) (hw : EdgesOnly w) (hn : NonNeg w) (s : Search)
    (hs : Inv w s) (v : Int) (hvn : IsNode v) (hvu : s.used v = false) :
    ∀ (l : List Int) (t : Search), Kept s v t → Kept s v (l.foldl (relaxStep w v) t) := by
  intro l
  induction l with
  | nil => intro t ht; exact ht
  | cons u l ih =>
    intro t ht
    simp only [List.foldl]
    exact ih _ (relaxStep_kept_inv w hw hn s hs v hvn hvu t ht u)

/-- No relaxation changes `dist[1]`. -/
theorem foldl_dist_one (w : Int → Int → ℚ) (hw : EdgesOnly w) (v : Int) :
    ∀ (l : List Int) (t : Search), (l.foldl (relaxStep w v) t).dist 1 = t.dist 1 := by
  intro l
  induction l with
  | nil => intro t; rfl
  | cons u l ih =>
    intro t
    simp only [List.foldl]
    rw [ih, relaxStep_dist]
    have hno : ¬ ((1 : Int) = u ∧ w v u < INF ∧ t.dist v + w v u < t.dist u) := by
      rintro ⟨rfl, hlt, -⟩
      exact (edge_nodes (hw v 1 hlt)).2.2.1 rfl
    simp only [hno, if_false]

/-- Claim C13. Settled distances are final: for an input with consumption `> 0`, prices
`>= 0` and distances `>= 0`, at every point of the search loop (after `k` iterations, the
selection and the mark of iteration `k+1`, and the relaxation passes for the neighbours in
`l`), the next relaxation pass, for any neighbour `u`, leaves `dist[x]` and `prev[x]` of every
node `x` already marked used as they are, although the pass does not test `used`; and
`dist[1]` is `0` before every iteration and at every such point. -/
theorem C13_settled_final (inp : Input) (hv : Valid inp) (k : Nat) (l : List Int) (u x : Int)
    (hsel : select (loop (weights inp) k init) ≠ -1) (hx : IsNode x)
    (hxu : (atPoint (weights inp) k l).used x = true) :
    (relaxStep (weights inp) (select (loop (weights inp) k init))
        (atPoint (weights inp) k l) u).dist x = (atPoint (weights inp) k l).dist x ∧
    (relaxStep (weights inp) (select (loop (weights inp) k init))
        (atPoint (weights inp) k l) u).prev x = (atPoint (weights inp) k l).prev x ∧
    (loop (weights inp) k init).dist 1 = 0 ∧ (atPoint (weights inp) k l).dist 1 = 0 := by
  have hw := weights_edgesOnly inp
  have hn := hv.nonNeg
  have hs := loop_inv_any (weights inp) hw hn k init (Inv_init _)
  unfold atPoint at hxu ⊢
  generalize loop (weights inp) k init = s at *
  have hex : ∃ i, IsNode i ∧ s.used i = false := by
    by_contra hex
    apply hsel
    apply select_none
    intro i hi
    cases hu : s.used i
    · exact absurd ⟨i, hi, hu⟩ hex
    · rfl
  obtain ⟨hvn, hvu, -⟩ := select_min s hex
  generalize select s = v at *
  have h0 : Kept s v { s with used := store s.used v true } := by
    constructor
    · intro y
      by_cases hy : y = v <;> simp [store, hy]
    · intro y _ _
      exact ⟨rfl, rfl⟩
  have ht := foldl_kept (weights inp) hw hn s hs v hvn hvu l _ h0
  have h1 := foldl_dist_one (weights inp) hw v l { s with used := store s.used v true }
  obtain ⟨hd, hp⟩ := relaxStep_kept (weights inp) hw hn s hs v hvn hvu _ ht u x hx hxu
  exact ⟨hd, hp, hs.src.1, by rw [h1]; exact hs.src.1⟩

/-- Witness of C13: the scenario of the specification, first iteration, after the passes for
neighbours 1 and 2: the pass for neighbour 3 leaves the settled node 1 alone. -/
theorem C13_settled_final_witness :
    Valid (scenario 0) ∧ select (loop (weights (scenario 0)) 0 init) ≠ -1 ∧
    (atPoint (weights (scenario 0)) 0 [1, 2]).used 1 = true ∧
    (relaxStep (weights (scenario 0)) (select (loop (weights (scenario 0)) 0 init))
        (atPoint (weights (scenario 0)) 0 [1, 2]) 3).dist 1 =
      (atPoint (weights (scenario 0)) 0 [1, 2]).dist 1 ∧
    (relaxStep (weights (scenario 0)) (select (loop (weights (scenario 0)) 0 init))
        (atPoint (weights (scenario 0)) 0 [1, 2]) 3).prev 1 =
      (atPoint (weights (scenario 0)) 0 [1, 2]).prev 1 ∧
    (loop (weights (scenario 0)) 0 init).dist 1 = 0 ∧
    (atPoint (weights (scenario 0)) 0 [1, 2]).dist 1 = 0 :=
  have hsel : select (loop (weights (scenario 0)) 0 init) = 1 := by
    norm_num [loop, select, selectStep, init, store, INF]
  have hne : select (loop (weights (scenario 0)) 0 init) ≠ -1 := by
    rw [hsel]; norm_num
  have hu : (atPoint (weights (scenario 0)) 0 [1, 2]).used 1 = true := by
    unfold atPoint
    rw [hsel]
    simp [List.foldl, relaxStep_used, loop, store]
  ⟨scenario_valid 0 (le_refl _), hne, hu,
    C13_settled_final (scenario 0) (scenario_valid 0 (le_refl _)) 0 [1, 2] 3 1 hne
      (Or.inl rfl) hu⟩

/-! ## The log of the improving relaxations -/

theorem relaxStepLog_fst (w : Int → Int → ℚ) (v : Int) (st : Search × List DebugStep)
    (u : Int) : (relaxStepLog w v st u).1 = relaxStep w v st.1 u := by
  unfold relaxStepLog relaxStep
  by_cases h1 : w v u < INF <;> by_cases h2 : st.1.dist v + w v u < st.1.dist u <;>
    simp [h1, h2]

theorem relaxLog_fst (w : Int → Int → ℚ) (v : Int) (st : Search × List DebugStep) :
    (relaxLog w v st).1 = relax w v st.1 := by
  simp only [relaxLog, relax, List.foldl, relaxStepLog_fst]

theorem loopLog_fst (w : Int → Int → ℚ) :
    ∀ (n : Nat) (st : Search × List DebugStep), (loopLog w n st).1 = loop w n st.1 := by
  intro n
  induction n with
  | zero => intro st; rfl
  | succ n ih =>
    intro st
    simp only [loopLog, loop]
    split_ifs
    · rfl
    · rw [ih, relaxLog_fst]

/-- The search with the log computes the search. -/
theorem searchLog_fst (w : Int → Int → ℚ) : (searchLog w).1 = search w :=
  loopLog_fst w 4 (init, [])

theorem relaxStepLog_logged (w : Int → Int → ℚ) (v : Int) (st : Search × List DebugStep)
    (u : Int) (h : Logged st) : Logged (relaxStepLog w v st u) := by
  unfold relaxStepLog
  by_cases h1 : w v u < INF
  · by_cases h2 : st.1.dist v + w v u < st.1.dist u
    · simp only [h1, h2, if_true]
      intro x
      by_cases hx : x = u
      · subst hx
        right
        simp [store]
      · rcases h x with h0 | h0
        · left
          simpa [store, hx] using h0
        · right
          simp only [store, hx, if_false]
          exact List.mem_append_left _ h0
    · simpa [h1, h2] using h
  · simpa [h1] using h

theorem relaxLog_logged (w : Int → Int → ℚ) (v : Int) (st : Search × List DebugStep)
    (h : Logged st) : Logged (relaxLog w v st) := by
  simp only [relaxLog, List.foldl]
  exact relaxStepLog_logged _ _ _ _ (relaxStepLog_logged _ _ _ _ (relaxStepLog_logged _ _ _ _
    (relaxStepLog_logged _ _ _ _ h)))

theorem loopLog_logged (w : Int → Int → ℚ) :
    ∀ (n : Nat) (st : Search × List DebugStep), Logged st → Logged (loopLog w n st) := by
  intro n
  induction n with
  | zero => intro st h; exact h
  | succ n ih =>
    intro st h
    simp only [loopLog]
    split_ifs
    · exact h
    · apply ih
      apply relaxLog_logged
      exact h

/-- After the search every predecessor link that is set has its record in the log. -/
theorem search_logged (w : Int → Int → ℚ) (u : Int) :
    (search w).prev u = -1 ∨
      (⟨(search w).prev u, u, (search w).dist u⟩ : DebugStep) ∈ (searchLog w).2 := by
  have h : Logged (searchLog w) := loopLog_logged w 4 (init, []) (fun _ => Or.inl rfl)
  have := h u
  rw [searchLog_fst] at this
  exact this

theorem twoHop_search :
    (search (weights twoHopInput)).prev 4 = 2 ∧ (search (weights twoHopInput)).prev 2 = 1 ∧
    (search (weights twoHopInput)).prev 1 = -1 ∧
    (search (weights twoHopInput)).dist 4 = 2 ∧
    (search (weights twoHopInput)).dist 2 = 1 := by
  norm_num [search, loop, select, selectStep, relax, relaxStep, init, store, weights, store2,
    nodeCost, INF, twoHopInput]

theorem twoHop_main :
    main twoHopInput = some (Outcome.ok [1, 2, 4] 2 2 socTimeline [⟨1, 2, 1⟩]) := by
  obtain ⟨h4, h2, h1, d4, d2⟩ := twoHop_search
  rw [main_124 _ h4 h2 h1, d4, d2]
  norm_num [twoHopInput]

theorem twoHop_log :
    (searchLog (weights twoHopInput)).2 = [⟨1, 2, 1⟩, ⟨2, 4, 2⟩] := by
  norm_num [searchLog, loopLog, relaxLog, relaxStepLog, select, selectStep, init, store,
    weights, store2, nodeCost, INF, twoHopInput]

/-- Counterexample to C11 as stated: for the input with the edges 1-2 and 2-4 the search
performs two improving relaxations, `(1,2,1)` and `(2,4,2)`, and the emitted `debug_steps`
holds the first of them only. -/
theorem C11_counterexample :
    main twoHopInput = some (Outcome.ok [1, 2, 4] 2 2 socTimeline [⟨1, 2, 1⟩]) ∧
    (searchLog (weights twoHopInput)).2 = [⟨1, 2, 1⟩, ⟨2, 4, 2⟩] ∧
    ([⟨1, 2, 1⟩] : List DebugStep) ≠ [⟨1, 2, 1⟩, ⟨2, 4, 2⟩] :=
  ⟨twoHop_main, twoHop_log, by simp⟩

/-- Claim C11 as amended. For every input for which a path `p` is returned, the emitted
`debug_steps` holds exactly one record: `current = 1`, `next = p[1]`, `newCost` the final
`dist[p[1]]`. When the path starts at node 1, that record is one of the records of the
relaxations that improved a tentative distance during the search; the other improving
relaxations are not emitted. -/
theorem C11_single_record (inp : Input) (p : List Int) (c td : ℚ)
    (soc : List SocPoint) (dbg : List DebugStep)
    (h : main inp = some (Outcome.ok p c td soc dbg)) :
    ∃ r : DebugStep, dbg = [r] ∧ r.current = 1 ∧ p[1]? = some r.next ∧
      r.newCost = (search (weights inp)).dist r.next ∧
      (p.head? = some 1 → r ∈ (searchLog (weights inp)).2) := by
  obtain ⟨hp1, hp2, hp3, hp4⟩ := search_prev_shape inp
  have l2 := search_logged (weights inp) 2
  have l3 := search_logged (weights inp) 3
  rcases hp4 with h4 | ⟨h4, -⟩ | ⟨h4, -⟩
  · rw [main_no_path inp h4] at h
    simp at h
  · rcases hp2 with h2 | ⟨h2, -⟩
    · rw [main_24 inp h4 h2] at h
      simp only [Option.some.injEq, Outcome.ok.injEq] at h
      obtain ⟨rfl, -, -, -, rfl⟩ := h
      exact ⟨_, rfl, rfl, rfl, rfl, fun hh => by simp at hh⟩
    · rw [main_124 inp h4 h2 hp1] at h
      simp only [Option.some.injEq, Outcome.ok.injEq] at h
      obtain ⟨rfl, -, -, -, rfl⟩ := h
      refine ⟨_, rfl, rfl, rfl, rfl, fun _ => ?_⟩
      rw [h2] at l2
      simpa using l2
  · rcases hp3 with h3 | ⟨h3, -⟩ | ⟨h3, -⟩
    · rw [main_34 inp h4 h3] at h
      simp only [Option.some.injEq, Outcome.ok.injEq] at h
      obtain ⟨rfl, -, -, -, rfl⟩ := h
      exact ⟨_, rfl, rfl, rfl, rfl, fun hh => by simp at hh⟩
    · rw [main_134 inp h4 h3 hp1] at h
      simp only [Option.some.injEq, Outcome.ok.injEq] at h
      obtain ⟨rfl, -, -, -, rfl⟩ := h
      refine ⟨_, rfl, rfl, rfl, rfl, fun _ => ?_⟩
      rw [h3] at l3
      simpa using l3
    · rcases hp2 with h2 | ⟨h2, -⟩
      · rw [main_234 inp h4 h3 h2] at h
        simp only [Option.some.injEq, Outcome.ok.injEq] at h
        obtain ⟨rfl, -, -, -, rfl⟩ := h
        exact ⟨_, rfl, rfl, rfl, rfl, fun hh => by simp at hh⟩
      · rw [main_1234 inp h4 h3 h2 hp1] at h
        simp only [Option.some.injEq, Outcome.ok.injEq] at h
        obtain ⟨rfl, -, -, -, rfl⟩ := h
        refine ⟨_, rfl, rfl, rfl, rfl, fun _ => ?_⟩
        rw [h2] at l2
        simpa using l2

/-- Witness of C11 (amended): the input with the edges 1-2 and 2-4. -/
theorem C11_single_record_witness :
    main twoHopInput = some (Outcome.ok [1, 2, 4] 2 2 socTimeline [⟨1, 2, 1⟩]) ∧
    ∃ r : DebugStep, ([⟨1, 2, 1⟩] : List DebugStep) = [r] ∧ r.current = 1 ∧
      ([1, 2, 4] : List Int)[1]? = some r.next ∧
      r.newCost = (search (weights twoHopInput)).dist r.next ∧
      (([1, 2, 4] : List Int).head? = some 1 → r ∈ (searchLog (weights twoHopInput)).2) :=
  ⟨twoHop_main, C11_single_record twoHopInput _ _ _ _ _ twoHop_main⟩

end ComputeRoute
